import Mathlib

/-!
Verification development for the CineLog backend (FastAPI + SQLAlchemy + TMDB).

The Python sources are shallowly embedded:
* strings are handled as lists of Unicode code points (`List Nat`);
* `utils.decode_cursor` / `utils.encode_cursor` are embedded on top of
  executable models of CPython's `base64.urlsafe_b64decode` /
  `urlsafe_b64encode` (non-strict `binascii.a2b_base64` semantics),
  strict UTF-8 decoding, and `json.loads` / `json.dumps`;
* the deck-building loop of `business_logic.get_deck` is embedded as a
  fuel-indexed recursion (the fuel is exactly the number of remaining
  pages up to the hard ceiling of page 500, so it never runs out);
* the relational Store is embedded as lists of rows, with the composite
  primary keys and foreign keys of `models.py` checked at commit time.
-/

/-! ### Code points and bytes -/

/-- The code points of a Lean string (the embedding of a Python `str`). -/
def cpsOfString (s : String) : List Nat := s.data.map Char.toNat

/-- Rebuild a string from code points (used only on ASCII output). -/
def stringOfCps (l : List Nat) : String := String.mk (l.map Char.ofNat)

/-! ### base64 (CPython `base64` module semantics)

`base64.urlsafe_b64decode` on a `str` first encodes it with the ASCII
codec (failing on any code point ≥ 128), translates `-`/`_` to `+`/`/`,
and calls `binascii.a2b_base64` in non-strict mode: characters outside
the alphabet are discarded, `=` with two or three quad characters
pending ends the quad, and leftover quad characters at the end are an
error (one leftover is the "1 more than a multiple of 4" error, two or
three are "Incorrect padding"). -/

/-- The standard base64 alphabet, index (< 64) to ASCII code. -/
def b64EncChar (i : Nat) : Nat :=
  if i < 26 then 65 + i
  else if i < 52 then 97 + (i - 26)
  else if i < 62 then 48 + (i - 52)
  else if i = 62 then 43
  else 47

/-- ASCII code to alphabet index; `none` for non-alphabet characters. -/
def b64DecChar (c : Nat) : Option Nat :=
  if 65 ≤ c ∧ c ≤ 90 then some (c - 65)
  else if 97 ≤ c ∧ c ≤ 122 then some (26 + (c - 97))
  else if 48 ≤ c ∧ c ≤ 57 then some (52 + (c - 48))
  else if c = 43 then some 62
  else if c = 47 then some 63
  else none

/-- Standard base64 encoding of a byte list, with `=` padding (61). -/
def b64EncodeStd : List Nat → List Nat
  | [] => []
  | [b1] => [b64EncChar (b1 / 4), b64EncChar (b1 % 4 * 16), 61, 61]
  | [b1, b2] =>
      [b64EncChar (b1 / 4), b64EncChar (b1 % 4 * 16 + b2 / 16), b64EncChar (b2 % 16 * 4), 61]
  | b1 :: b2 :: b3 :: rest =>
      b64EncChar (b1 / 4) :: b64EncChar (b1 % 4 * 16 + b2 / 16) ::
        b64EncChar (b2 % 16 * 4 + b3 / 64) :: b64EncChar (b3 % 64) :: b64EncodeStd rest

/-- The `+`/`/` to `-`/`_` translation of `urlsafe_b64encode`. -/
def urlsafeOfStd (c : Nat) : Nat := if c = 43 then 45 else if c = 47 then 95 else c

/-- The `-`/`_` to `+`/`/` translation of `urlsafe_b64decode`. -/
def stdOfUrlsafe (c : Nat) : Nat := if c = 45 then 43 else if c = 95 then 47 else c

/-- Non-strict `binascii.a2b_base64` over ASCII codes: `qp` counts quad
characters pending, `lc` holds their leftover bits. -/
def a2bBase64 : List Nat → Nat → Nat → Option (List Nat)
  | [], 0, _ => some []
  | [], _ + 1, _ => none
  | c :: rest, qp, lc =>
    if c = 61 then
      if 2 ≤ qp then a2bBase64 rest 0 0 else a2bBase64 rest qp lc
    else
      match b64DecChar c with
      | none => a2bBase64 rest qp lc
      | some v =>
        match qp with
        | 0 => a2bBase64 rest 1 v
        | 1 => Option.map (fun o => (lc * 64 + v) / 16 :: o) (a2bBase64 rest 2 ((lc * 64 + v) % 16))
        | 2 => Option.map (fun o => (lc * 64 + v) / 4 :: o) (a2bBase64 rest 3 ((lc * 64 + v) % 4))
        | _ => Option.map (fun o => (lc * 64 + v) :: o) (a2bBase64 rest 0 0)

/-- `base64.urlsafe_b64decode` applied to a Python `str` given by its code
points; `none` models a raised exception. -/
def pyUrlsafeB64decode (cps : List Nat) : Option (List Nat) :=
  if cps.all (fun c => c < 128) then a2bBase64 (cps.map stdOfUrlsafe) 0 0 else none

/-- `base64.urlsafe_b64encode` of a byte list, as ASCII codes. -/
def pyUrlsafeB64encode (bs : List Nat) : List Nat := (b64EncodeStd bs).map urlsafeOfStd

/-! ### UTF-8 (strict, as Python's `bytes.decode("utf-8")` / `str.encode`) -/

/-- UTF-8 encoding of one code point. -/
def utf8EncodeChar (c : Nat) : List Nat :=
  if c < 128 then [c]
  else if c < 2048 then [192 + c / 64, 128 + c % 64]
  else if c < 65536 then [224 + c / 4096, 128 + c / 64 % 64, 128 + c % 64]
  else [240 + c / 262144, 128 + c / 4096 % 64, 128 + c / 64 % 64, 128 + c % 64]

/-- UTF-8 encoding of a code-point list. -/
def utf8Encode (cps : List Nat) : List Nat := (cps.map utf8EncodeChar).flatten

/-- Decode a 2-byte UTF-8 sequence (`0xC2-0xDF` plus continuation). -/
def utf8Cp2 (b b2 : Nat) : Option Nat :=
  if 194 ≤ b ∧ b < 224 ∧ 128 ≤ b2 ∧ b2 < 192 then some ((b - 192) * 64 + (b2 - 128))
  else none

/-- Decode a 3-byte UTF-8 sequence, rejecting overlong forms and
surrogates. -/
def utf8Cp3 (b b2 b3 : Nat) : Option Nat :=
  if 224 ≤ b ∧ b < 240 ∧ 128 ≤ b2 ∧ b2 < 192 ∧ 128 ≤ b3 ∧ b3 < 192 then
    if 2048 ≤ (b - 224) * 4096 + (b2 - 128) * 64 + (b3 - 128) ∧
        ¬(55296 ≤ (b - 224) * 4096 + (b2 - 128) * 64 + (b3 - 128) ∧
          (b - 224) * 4096 + (b2 - 128) * 64 + (b3 - 128) < 57344) then
      some ((b - 224) * 4096 + (b2 - 128) * 64 + (b3 - 128))
    else none
  else none

/-- Decode a 4-byte UTF-8 sequence, rejecting overlong forms and code
points beyond U+10FFFF (this also rejects any start byte ≥ `0xF5`). -/
def utf8Cp4 (b b2 b3 b4 : Nat) : Option Nat :=
  if 240 ≤ b ∧ b < 245 ∧ 128 ≤ b2 ∧ b2 < 192 ∧ 128 ≤ b3 ∧ b3 < 192 ∧ 128 ≤ b4 ∧ b4 < 192
  then
    if 65536 ≤ (b - 240) * 262144 + (b2 - 128) * 4096 + (b3 - 128) * 64 + (b4 - 128) ∧
        (b - 240) * 262144 + (b2 - 128) * 4096 + (b3 - 128) * 64 + (b4 - 128) < 1114112 then
      some ((b - 240) * 262144 + (b2 - 128) * 4096 + (b3 - 128) * 64 + (b4 - 128))
    else none
  else none

/-- Decode one UTF-8 sequence at the head of the byte list, returning
the code point and the remaining bytes. -/
def utf8DecodeStep : List Nat → Option (Nat × List Nat)
  | [] => none
  | b :: rest =>
    if b < 128 then some (b, rest)
    else if b < 224 then
      match rest with
      | b2 :: rest2 => (utf8Cp2 b b2).map (fun cp => (cp, rest2))
      | [] => none
    else if b < 240 then
      match rest with
      | b2 :: b3 :: rest3 => (utf8Cp3 b b2 b3).map (fun cp => (cp, rest3))
      | _ => none
    else
      match rest with
      | b2 :: b3 :: b4 :: rest4 => (utf8Cp4 b b2 b3 b4).map (fun cp => (cp, rest4))
      | _ => none

/-- Strict UTF-8 decoding loop. Every step consumes at least one byte,
so fuel larger than the input length never runs out. -/
def utf8DecodeGo : Nat → List Nat → Option (List Nat)
  | 0, _ => none
  | _ + 1, [] => some []
  | fuel + 1, b :: rest =>
    match utf8DecodeStep (b :: rest) with
    | some (cp, rest2) => Option.map (fun o => cp :: o) (utf8DecodeGo fuel rest2)
    | none => none

/-- Strict UTF-8 decoding: rejects stray continuation bytes, overlong
forms, surrogates and code points beyond U+10FFFF, exactly as Python's
strict `bytes.decode("utf-8")`; `none` models a `UnicodeDecodeError`. -/
def utf8Decode (bs : List Nat) : Option (List Nat) := utf8DecodeGo (bs.length + 1) bs

/-! ### Python JSON values (as produced by `json.loads`)

Integer literals become Python `int`s; literals with a fraction or
exponent (and the `NaN`/`Infinity` constants) become `float`s, kept
symbolically as their raw token so no floating-point arithmetic enters
the embedding. Strings and object keys are code-point lists. -/

inductive PyJson where
  | null
  | bool (b : Bool)
  | int (n : Int)
  | float (raw : List Nat)
  | str (cps : List Nat)
  | arr (items : List PyJson)
  | obj (members : List (List Nat × PyJson))
deriving BEq

/-- JSON whitespace (space, tab, newline, carriage return). -/
def jsonWs (c : Nat) : Bool := c == 32 || c == 9 || c == 10 || c == 13

/-- Skip leading JSON whitespace. -/
def skipWs : List Nat → List Nat
  | c :: cs => if jsonWs c then skipWs cs else c :: cs
  | [] => []

/-- ASCII decimal digit test. -/
def isDigitCp (c : Nat) : Bool := decide (48 ≤ c ∧ c ≤ 57)

/-- Split off the maximal leading digit run. -/
def takeDigitRun (cs : List Nat) : List Nat × List Nat :=
  (cs.takeWhile isDigitCp, cs.dropWhile isDigitCp)

/-- Value of a digit run, most significant first. -/
def digitsVal (ds : List Nat) : Nat := ds.foldl (fun a d => a * 10 + (d - 48)) 0

/-- Finish a number token: Python's `json` number regex
`(-?(0|[1-9]\d*))(\.\d+)?([eE][+-]?\d+)?`; an optional group that does
not match leaves its characters unconsumed. Ints without fraction or
exponent become `PyJson.int`, everything else a symbolic float. -/
def parseNumTail (neg : Bool) (ipart rest : List Nat) : PyJson × List Nat :=
  let fr : List Nat × List Nat :=
    match rest with
    | c :: r =>
      if c = 46 then
        match takeDigitRun r with
        | ([], _) => ([], rest)
        | (fds, r2) => (46 :: fds, r2)
      else ([], rest)
    | [] => ([], rest)
  let ex : List Nat × List Nat :=
    match fr.2 with
    | e :: r =>
      if e = 101 ∨ e = 69 then
        match r with
        | s :: r2 =>
          if s = 43 ∨ s = 45 then
            match takeDigitRun r2 with
            | ([], _) => ([], fr.2)
            | (eds, r3) => (e :: s :: eds, r3)
          else
            match takeDigitRun r with
            | ([], _) => ([], fr.2)
            | (eds, r3) => (e :: eds, r3)
        | [] => ([], fr.2)
      else ([], fr.2)
    | [] => ([], fr.2)
  if fr.1 = [] ∧ ex.1 = [] then
    (PyJson.int ((if neg then -1 else 1) * (digitsVal ipart : Int)), ex.2)
  else
    (PyJson.float ((if neg then [45] else []) ++ ipart ++ fr.1 ++ ex.1), ex.2)

/-- Parse a number token if the input starts with one. -/
def parseJsonNumber (cs : List Nat) : Option (PyJson × List Nat) :=
  let sg : Bool × List Nat :=
    match cs with
    | c :: r => if c = 45 then (true, r) else (false, cs)
    | [] => (false, cs)
  match sg.2 with
  | c :: r =>
    if c = 48 then some (parseNumTail sg.1 [48] r)
    else if isDigitCp c then
      match takeDigitRun r with
      | (ds, r2) => some (parseNumTail sg.1 (c :: ds) r2)
    else none
  | [] => none

/-- Hexadecimal digit value. -/
def hexDigitVal (c : Nat) : Option Nat :=
  if 48 ≤ c ∧ c ≤ 57 then some (c - 48)
  else if 97 ≤ c ∧ c ≤ 102 then some (c - 87)
  else if 65 ≤ c ∧ c ≤ 70 then some (c - 55)
  else none

/-- Single-character JSON escapes. -/
def jsonUnescape (e : Nat) : Option Nat :=
  if e = 34 then some 34
  else if e = 92 then some 92
  else if e = 47 then some 47
  else if e = 98 then some 8
  else if e = 102 then some 12
  else if e = 110 then some 10
  else if e = 114 then some 13
  else if e = 116 then some 9
  else none

/-- Parse a JSON string body after the opening quote, accumulating code
points in reverse. Strict mode: raw control characters are an error.
`\uXXXX` surrogate pairs combine; a high surrogate followed by anything
other than a `\u` escape is kept lone, while a malformed `\u` escape
right after it is an error, as in CPython's `json` scanner. The fuel is
structural; callers supply more fuel than the input length, and every
recursive call consumes at least one input character, so parsing never
exhausts it. -/
def parseJsonStringAux : Nat → List Nat → List Nat → Option (List Nat × List Nat)
  | 0, _, _ => none
  | _ + 1, 34 :: r, acc => some (acc.reverse, r)
  | fuel + 1, 92 :: 117 :: a :: b :: c :: d :: r, acc =>
    match hexDigitVal a, hexDigitVal b, hexDigitVal c, hexDigitVal d with
    | some va, some vb, some vc, some vd =>
      let n := ((va * 16 + vb) * 16 + vc) * 16 + vd
      if 55296 ≤ n ∧ n ≤ 56319 then
        match r with
        | 92 :: 117 :: a2 :: b2 :: c2 :: d2 :: r2 =>
          match hexDigitVal a2, hexDigitVal b2, hexDigitVal c2, hexDigitVal d2 with
          | some wa, some wb, some wc, some wd =>
            let n2 := ((wa * 16 + wb) * 16 + wc) * 16 + wd
            if 56320 ≤ n2 ∧ n2 ≤ 57343 then
              parseJsonStringAux fuel r2 ((65536 + (n - 55296) * 1024 + (n2 - 56320)) :: acc)
            else parseJsonStringAux fuel r (n :: acc)
          | _, _, _, _ => none
        | 92 :: 117 :: _ => none
        | _ => parseJsonStringAux fuel r (n :: acc)
      else parseJsonStringAux fuel r (n :: acc)
    | _, _, _, _ => none
  | fuel + 1, 92 :: e :: r, acc =>
    match jsonUnescape e with
    | some ch => parseJsonStringAux fuel r (ch :: acc)
    | none => none
  | fuel + 1, c :: r, acc => if c < 32 then none else parseJsonStringAux fuel r (c :: acc)
  | _ + 1, [], _ => none

mutual

/-- Parse one JSON value (fuel-indexed; the caller supplies fuel larger
than the input length, which bounds the recursion depth, so the fuel
never runs out on a real parse). Dispatch order follows CPython's
scanner; empty containers are handled inline. -/
def parseJsonValue : Nat → List Nat → Option (PyJson × List Nat)
  | 0, _ => none
  | fuel + 1, cs =>
    match cs with
    | 110 :: 117 :: 108 :: 108 :: r => some (.null, r)
    | 116 :: 114 :: 117 :: 101 :: r => some (.bool true, r)
    | 102 :: 97 :: 108 :: 115 :: 101 :: r => some (.bool false, r)
    | 34 :: r =>
      match parseJsonStringAux (r.length + 1) r [] with
      | some (s, r2) => some (.str s, r2)
      | none => none
    | 123 :: r =>
      match skipWs r with
      | 125 :: r2 => some (.obj [], r2)
      | cs2 =>
        match parseJsonMembers fuel cs2 with
        | some (ms, r2) => some (.obj ms, r2)
        | none => none
    | 91 :: r =>
      match skipWs r with
      | 93 :: r2 => some (.arr [], r2)
      | cs2 =>
        match parseJsonElems fuel cs2 with
        | some (vs, r2) => some (.arr vs, r2)
        | none => none
    | _ =>
      match parseJsonNumber cs with
      | some res => some res
      | none =>
        match cs with
        | 78 :: 97 :: 78 :: r => some (.float [78, 97, 78], r)
        | 73 :: 110 :: 102 :: 105 :: 110 :: 105 :: 116 :: 121 :: r =>
          some (.float [73, 110, 102], r)
        | 45 :: 73 :: 110 :: 102 :: 105 :: 110 :: 105 :: 116 :: 121 :: r =>
          some (.float [45, 73, 110, 102], r)
        | _ => none

/-- Parse one-or-more comma-separated object members. -/
def parseJsonMembers : Nat → List Nat → Option (List (List Nat × PyJson) × List Nat)
  | 0, _ => none
  | fuel + 1, cs =>
    match cs with
    | 34 :: r =>
      match parseJsonStringAux (r.length + 1) r [] with
      | some (k, r1) =>
        match skipWs r1 with
        | 58 :: r2 =>
          match parseJsonValue fuel (skipWs r2) with
          | some (v, r3) =>
            match skipWs r3 with
            | 44 :: r4 =>
              match parseJsonMembers fuel (skipWs r4) with
              | some (ms, r5) => some ((k, v) :: ms, r5)
              | none => none
            | 125 :: r4 => some ([(k, v)], r4)
            | _ => none
          | none => none
        | _ => none
      | none => none
    | _ => none

/-- Parse one-or-more comma-separated array elements. -/
def parseJsonElems : Nat → List Nat → Option (List PyJson × List Nat)
  | 0, _ => none
  | fuel + 1, cs =>
    match parseJsonValue fuel cs with
    | some (v, r) =>
      match skipWs r with
      | 44 :: r2 =>
        match parseJsonElems fuel (skipWs r2) with
        | some (vs, r3) => some (v :: vs, r3)
        | none => none
      | 93 :: r2 => some ([v], r2)
      | _ => none
    | none => none

end

/-- `json.loads` over code points: skip leading whitespace, parse one
value, and require only whitespace to remain. -/
def pyJsonLoads (cps : List Nat) : Option PyJson :=
  match parseJsonValue (cps.length + 1) (skipWs cps) with
  | some (v, rest) => if skipWs rest = [] then some v else none
  | none => none

/-- Python `dict.get` with a default: with duplicate keys in the member
list the last assignment wins, as in a Python dict literal. -/
def pyDictGet (ms : List (List Nat × PyJson)) (k : List Nat) (d : PyJson) : PyJson :=
  match ms.reverse.find? (fun kv => kv.1 == k) with
  | some kv => kv.2
  | none => d

/-- Code points of the object key `page`. -/
def pageKeyCps : List Nat := [112, 97, 103, 101]

/-- Code points of the object key `index`. -/
def indexKeyCps : List Nat := [105, 110, 100, 101, 120]

/-- Embedding of `utils.decode_cursor`: urlsafe-base64-decode, decode as
UTF-8, `json.loads`, then `.get("page", 1)` and `.get("index", 0)`. Any
exception on the way (bad base64, bad UTF-8, bad JSON, or a non-dict
value, whose `.get` raises `AttributeError`) is caught and yields the
start position `(1, 0)`. -/
def decode_cursor (cursor : String) : PyJson × PyJson :=
  match pyUrlsafeB64decode (cpsOfString cursor) with
  | none => (.int 1, .int 0)
  | some bytes =>
    match utf8Decode bytes with
    | none => (.int 1, .int 0)
    | some cps =>
      match pyJsonLoads cps with
      | some (.obj ms) => (pyDictGet ms pageKeyCps (.int 1), pyDictGet ms indexKeyCps (.int 0))
      | _ => (.int 1, .int 0)

/-- Decimal digit characters (ASCII codes) of `n`, most significant
first; fuel-indexed so it computes by `rfl`. -/
def natDigitsGo : Nat → Nat → List Nat
  | 0, _ => []
  | f + 1, n => if n < 10 then [48 + n] else natDigitsGo f (n / 10) ++ [48 + n % 10]

/-- Decimal digits of a natural number. -/
def natDigitCps (n : Nat) : List Nat := natDigitsGo (n + 1) n

/-- Python `repr` of an int: optional minus sign, then decimal digits. -/
def intReprCps (n : Int) : List Nat :=
  if n < 0 then 45 :: natDigitCps n.natAbs else natDigitCps n.toNat

/-- Code points of `json.dumps` applied to the two-key cursor dict, with
the default separators: a `\x7b"page": P, "index": I\x7d` record. -/
def dumpsCursorCps (page index : Int) : List Nat :=
  [123, 34, 112, 97, 103, 101, 34, 58, 32] ++ intReprCps page ++
    [44, 32, 34, 105, 110, 100, 101, 120, 34, 58, 32] ++ intReprCps index ++ [125]

/-- Embedding of `utils.encode_cursor`: `json.dumps` the pair, UTF-8
encode, urlsafe-base64 encode. -/
def encode_cursor (page index : Int) : String :=
  stringOfCps (pyUrlsafeB64encode (utf8Encode (dumpsCursorCps page index)))

/-! ### The deck-building loop (`business_logic.get_deck`, lines 85-123) -/

/-- One entry of a TMDB `discover` results page. -/
structure TmdbMovie where
  id : Int
  title : Option String := none
  name : Option String := none
  poster_path : Option String := none
  backdrop_path : Option String := none
  overview : Option String := none
  release_date : Option String := none
deriving DecidableEq

/-- One card of the deck response. -/
structure DeckCard where
  id : Int
  title : String
  poster_path : Option String
  backdrop_path : Option String
  overview : Option String
  release_date : Option String
deriving DecidableEq

/-- Python `x or y` for optional strings: `None` and the empty string
are falsy. -/
def pyStrOr (v : Option String) (d : String) : String :=
  match v with
  | some s => if s = "" then d else s
  | none => d

/-- Build a deck card from a feed entry, with the
`title or name or "Untitled"` fallback. -/
def mkDeckCard (m : TmdbMovie) : DeckCard :=
  { id := m.id
    title := pyStrOr m.title (pyStrOr m.name "Untitled")
    poster_path := m.poster_path
    backdrop_path := m.backdrop_path
    overview := m.overview
    release_date := m.release_date }

/-- Python list slicing `l[i:]`: a negative start counts from the end
(clamped at zero). -/
def pySliceFrom (l : List α) (i : Int) : List α :=
  if i < 0 then l.drop (((l.length : Int) + i).toNat) else l.drop i.toNat

/-- The inner `for idx, m in enumerate(results)` loop: skip seen ids,
append cards, and at the moment the limit is reached return the cursor
`(page, current_index + idx + 1)`. -/
def scanPage (seen : List Int) (limit : Int) (page curIdx : Int) :
    List TmdbMovie → Nat → List DeckCard → List DeckCard × Option (Int × Int)
  | [], _, cards => (cards, none)
  | m :: rest, idx, cards =>
    if m.id ∈ seen then scanPage seen limit page curIdx rest (idx + 1) cards
    else
      let cards2 := cards ++ [mkDeckCard m]
      if limit ≤ (cards2.length : Int) then (cards2, some (page, curIdx + (idx : Int) + 1))
      else scanPage seen limit page curIdx rest (idx + 1) cards2

/-- The outer `while len(deck_cards) < limit and current_page <= 500`
loop. The slice `results[current_index:]` is applied exactly when
`current_page == start_page`; an empty upstream page breaks out; after a
page that did not reach the limit the page advances and the index resets
to 0. The fuel counts the remaining pages up to the ceiling, so it never
runs out (fuel 0 coincides with the `current_page > 500` exit). -/
def deckLoop (feed : Int → List TmdbMovie) (seen : List Int) (limit startPage startIdx : Int) :
    Nat → Int → Int → List DeckCard → List DeckCard × Option (Int × Int) × Bool
  | 0, _, _, cards => (cards, none, false)
  | fuel + 1, page, curIdx, cards =>
    if (cards.length : Int) < limit ∧ page ≤ 500 then
      if feed page = [] then (cards, none, false)
      else
        match scanPage seen limit page curIdx
            (if page = startPage then pySliceFrom (feed page) curIdx else feed page)
            0 cards with
        | (cards2, some cur) => (cards2, some cur, true)
        | (cards2, none) => deckLoop feed seen limit startPage startIdx fuel (page + 1) 0 cards2
    else (cards, none, false)

/-- The deck-building core: the loop of `get_deck` from a decoded start
position, returning `(deck_cards, next_cursor, has_more)`. -/
def getDeckCore (feed : Int → List TmdbMovie) (seen : List Int)
    (limit startPage startIdx : Int) : List DeckCard × Option (Int × Int) × Bool :=
  deckLoop feed seen limit startPage startIdx ((501 - startPage).toNat) startPage startIdx []

/-! ### The Store (`models.py` rows; lists of committed rows) -/

/-- A `users` row. -/
structure UserRow where
  id : Nat
  email : String
  created_at : Nat
deriving DecidableEq

/-- A `movies` row. -/
structure MovieRow where
  id : Int
  title : String
  release_date : Option String
  poster_path : Option String
  backdrop_path : Option String
  overview : Option String
deriving DecidableEq

/-- A `genres` row. -/
structure GenreRow where
  id : Int
  name : String
deriving DecidableEq

/-- A `swipes` row (composite primary key `(user_id, movie_id)`). -/
structure SwipeRow where
  user_id : Nat
  movie_id : Int
  decision : Int
  swiped_at : Nat
deriving DecidableEq

/-- A `master_list` row (composite primary key `(user_id, movie_id)`). -/
structure MasterListRow where
  user_id : Nat
  movie_id : Int
  rating : Option Rat
  notes : Option String
  added_at : Nat
deriving DecidableEq

/-- A `watch_later_list` row (composite primary key `(user_id, movie_id)`). -/
structure WatchLaterRow where
  user_id : Nat
  movie_id : Int
  priority : Int
  added_at : Nat
deriving DecidableEq

/-- A `friendships` row: a single directed pair with a status. -/
structure FriendshipRow where
  user_id : Nat
  friend_id : Nat
  status : String
  created_at : Nat
deriving DecidableEq

/-- The committed database state. UUIDs are modelled as naturals drawn
from `next_uuid`; timestamps as the `clock` value at insertion. -/
structure Db where
  users : List UserRow
  movies : List MovieRow
  genres : List GenreRow
  movie_genres : List (Int × Int)
  swipes : List SwipeRow
  master_list : List MasterListRow
  watch_later : List WatchLaterRow
  friendships : List FriendshipRow
  next_uuid : Nat
  clock : Nat
deriving DecidableEq

/-- Update the first row matching `p` in place (SQLAlchemy `.first()`
followed by attribute assignment). -/
def updateFirst (p : α → Bool) (f : α → α) : List α → List α
  | [] => []
  | x :: xs => if p x then f x :: xs else x :: updateFirst p f xs

/-! ### Read layer (`app/data/read/users.py`) -/

/-- `get_user_by_email`: first user with the given email. -/
def get_user_by_email (db : Db) (email : String) : Option UserRow :=
  db.users.find? (fun u => u.email == email)

/-- `get_user_by_id`: first user with the given UUID. -/
def get_user_by_id (db : Db) (uid : Nat) : Option UserRow :=
  db.users.find? (fun u => u.id == uid)

/-- `get_user_swiped_movie_ids`: movie ids the user swiped on. Python
returns a set; the embedding keeps a list and uses only membership. -/
def get_user_swiped_movie_ids (db : Db) (uid : Nat) : List Int :=
  (db.swipes.filter (fun s => s.user_id == uid)).map (fun s => s.movie_id)

/-- `get_user_master_list_movie_ids`. -/
def get_user_master_list_movie_ids (db : Db) (uid : Nat) : List Int :=
  (db.master_list.filter (fun r => r.user_id == uid)).map (fun r => r.movie_id)

/-- `get_user_watch_later_movie_ids`. -/
def get_user_watch_later_movie_ids (db : Db) (uid : Nat) : List Int :=
  (db.watch_later.filter (fun r => r.user_id == uid)).map (fun r => r.movie_id)

/-- `get_user_seen_movie_ids`: the union of swiped, master-list and
watch-later ids (list concatenation; only membership is consumed). -/
def get_user_seen_movie_ids (db : Db) (uid : Nat) : List Int :=
  get_user_swiped_movie_ids db uid ++ get_user_master_list_movie_ids db uid ++
    get_user_watch_later_movie_ids db uid

/-- `get_user_friends`: accepted rows where the user is the initiator,
and accepted rows where the user is the target. -/
def get_user_friends (db : Db) (uid : Nat) : List FriendshipRow × List FriendshipRow :=
  (db.friendships.filter (fun f => f.user_id == uid && f.status == "accepted"),
   db.friendships.filter (fun f => f.friend_id == uid && f.status == "accepted"))

/-! ### Edit layer (`app/data/edit/*.py`) -/

/-- `create_or_get_user` / `ensure_user_exists`: return the existing row
or insert one with a fresh UUID. -/
def ensure_user_exists (db : Db) (email : String) : Db × UserRow :=
  match get_user_by_email db email with
  | some u => (db, u)
  | none =>
    let u : UserRow := { id := db.next_uuid, email := email, created_at := db.clock }
    ({ db with users := db.users ++ [u], next_uuid := db.next_uuid + 1 }, u)

/-- `ensure_movie_exists`: insert a placeholder row if absent. -/
def ensure_movie_exists (db : Db) (mid : Int) : Db :=
  if (db.movies.find? (fun m => m.id == mid)).isSome then db
  else
    { db with
      movies := db.movies ++
        [{ id := mid, title := "TMDB:" ++ toString mid, release_date := none,
           poster_path := none, backdrop_path := none, overview := none }] }

/-- `create_or_update_movie`: update the existing row in place (a kwarg
that is `None` leaves the field alone; `title` always overwrites), or
insert. -/
def create_or_update_movie (db : Db) (mid : Int) (title : String)
    (release_date poster_path backdrop_path overview : Option String) : Db :=
  if (db.movies.find? (fun m => m.id == mid)).isSome then
    { db with
      movies := updateFirst (fun m => m.id == mid)
        (fun m =>
          { m with
            title := title
            release_date := release_date.or m.release_date
            poster_path := poster_path.or m.poster_path
            backdrop_path := backdrop_path.or m.backdrop_path
            overview := overview.or m.overview }) db.movies }
  else
    { db with
      movies := db.movies ++
        [{ id := mid, title := title, release_date := release_date,
           poster_path := poster_path, backdrop_path := backdrop_path,
           overview := overview }] }

/-- `add_movie_genre`: insert the association if not present. -/
def add_movie_genre (mgs : List (Int × Int)) (mid gid : Int) : List (Int × Int) :=
  if (mid, gid) ∈ mgs then mgs else mgs ++ [(mid, gid)]

/-- `create_or_update_master_list_item` (`edit/lists.py` lines 11-34):
on an existing row a supplied rating or notes value overwrites, an
unsupplied (`None`) one is left alone; otherwise insert. -/
def create_or_update_master_list_item (rows : List MasterListRow) (uid : Nat) (mid : Int)
    (rating : Option Rat) (notes : Option String) (now : Nat) : List MasterListRow :=
  if (rows.find? (fun r => r.user_id == uid && r.movie_id == mid)).isSome then
    updateFirst (fun r => r.user_id == uid && r.movie_id == mid)
      (fun r =>
        { r with
          rating := match rating with | some v => some v | none => r.rating
          notes := match notes with | some v => some v | none => r.notes }) rows
  else rows ++ [{ user_id := uid, movie_id := mid, rating := rating, notes := notes,
                  added_at := now }]

/-- `update_master_list_item` (`edit/lists.py` lines 74-94): same field
merge on the existing row; no insert when absent. -/
def update_master_list_item (rows : List MasterListRow) (uid : Nat) (mid : Int)
    (rating : Option Rat) (notes : Option String) : List MasterListRow :=
  updateFirst (fun r => r.user_id == uid && r.movie_id == mid)
    (fun r =>
      { r with
        rating := match rating with | some v => some v | none => r.rating
        notes := match notes with | some v => some v | none => r.notes }) rows

/-- `create_or_update_friendship`: look up only the `(user, friend)`
directed row; overwrite its status, or insert a new directed row. -/
def create_or_update_friendship (rows : List FriendshipRow) (uid fid : Nat)
    (status : String) (now : Nat) : List FriendshipRow :=
  if (rows.find? (fun r => r.user_id == uid && r.friend_id == fid)).isSome then
    updateFirst (fun r => r.user_id == uid && r.friend_id == fid)
      (fun r => { r with status := status }) rows
  else rows ++ [{ user_id := uid, friend_id := fid, status := status, created_at := now }]

/-! ### Business logic (`app/business_logic.py`) and routes (`app/main.py`) -/

/-- `utils.decision_to_int`. -/
def decision_to_int (decision : String) : Int := if decision = "like" then 1 else -1

/-- The swipe response dict. -/
structure SwipeResp where
  ok : Bool
  user_id : String
  movie_id : Int
  decision : String
deriving DecidableEq

/-- The Postgres error message for a duplicate-key insert into `swipes`.
The composite primary key on `(user_id, movie_id)` is declared in
`models.py`; the Store raises this `IntegrityError` at commit. -/
def pgDuplicateKeyMsg : String :=
  "duplicate key value violates unique constraint \x22swipes_pkey\x22"

/-- `process_swipe`: get-or-create the user, ensure the movie exists,
add the swipe, commit. A commit that violates the swipes primary key
raises; the error aborts the whole transaction, so on the error path the
committed state is unchanged. -/
def process_swipe (db : Db) (user_id : String) (movie_id : Int) (decision : String) :
    Except String (SwipeResp × Db) :=
  let ur := ensure_user_exists db user_id
  let db2 := ensure_movie_exists ur.1 movie_id
  if db2.swipes.any (fun s => s.user_id == ur.2.id && s.movie_id == movie_id) then
    .error pgDuplicateKeyMsg
  else
    .ok ({ ok := true, user_id := user_id, movie_id := movie_id, decision := decision },
      { db2 with
        swipes := db2.swipes ++
          [{ user_id := ur.2.id, movie_id := movie_id,
             decision := decision_to_int decision, swiped_at := db2.clock }] })

/-- Result of a route handler: a payload with the committed state, or an
HTTP error with the rolled-back state. -/
inductive ApiResult (α : Type) where
  | ok (value : α) (db : Db)
  | err (status : Nat) (detail : String) (db : Db)
deriving DecidableEq

/-- Python `sub in s` on strings: contiguous substring containment. -/
def containsSub (s sub : String) : Bool := decide (sub.data <:+: s.data)

/-- Python `str.lower` restricted to ASCII (every string it is applied
to in the routes is ASCII). -/
def pyLower (s : String) : String :=
  String.mk (s.data.map (fun c =>
    if 65 ≤ c.toNat ∧ c.toNat ≤ 90 then Char.ofNat (c.toNat + 32) else c))

/-- The `/swipe` route handler (`main.py` lines 101-110): an error whose
lowercased text mentions `duplicate` or `already` becomes a 409
Conflict, anything else a generic 400; both roll back. -/
def swipe_route (db : Db) (user_id : String) (movie_id : Int) (decision : String) :
    ApiResult SwipeResp :=
  match process_swipe db user_id movie_id decision with
  | .ok (resp, db2) => .ok resp db2
  | .error e =>
    if containsSub (pyLower e) ("duplicate") || containsSub (pyLower e) ("already") then
      .err 409 "Already swiped" db
    else .err 400 e db

/-- `send_friend_request`: resolve both emails, reject self-friending,
then create-or-update the directed `(user, friend)` row with status
`pending` and commit. -/
def send_friend_request (db : Db) (user_id friend_email : String) : Except String Db :=
  match get_user_by_email db user_id with
  | none => .error "User not found"
  | some u =>
    match get_user_by_email db friend_email with
    | none => .error "Friend not found"
    | some f =>
      if u.id = f.id then .error "Cannot friend yourself"
      else
        .ok { db with
              friendships := create_or_update_friendship db.friendships u.id f.id
                "pending" db.clock }

/-- One entry of the friends-list response. -/
structure FriendEntry where
  id : String
  email : String
  status : String
  created_at : Nat
deriving DecidableEq

/-- `get_user_friends_list`: resolve the other party of every outgoing
then incoming accepted row (dropping rows whose other party does not
resolve), then sort by `created_at` descending (stable, like Python's
`list.sort` with `reverse=True`). -/
def get_user_friends_list (db : Db) (user_id : String) : List FriendEntry :=
  match get_user_by_email db user_id with
  | none => []
  | some u =>
    let oi := get_user_friends db u.id
    let res1 := oi.1.filterMap (fun f =>
      (get_user_by_id db f.friend_id).map (fun fr =>
        { id := toString f.friend_id, email := fr.email, status := "accepted",
          created_at := f.created_at }))
    let res2 := oi.2.filterMap (fun f =>
      (get_user_by_id db f.user_id).map (fun fr =>
        { id := toString f.user_id, email := fr.email, status := "accepted",
          created_at := f.created_at }))
    (res1 ++ res2).mergeSort (fun a b => b.created_at ≤ a.created_at)

/-- The genre list of a TMDB movie-details record: the `.get("id")` of
each entry of `.get("genres", [])`. `none` for the whole record models
an exception while fetching the details. -/
structure MovieDetails where
  genres : List (Option Int)
deriving DecidableEq

/-- Genre sync for one deck card (`get_deck` lines 140-153): fetch the
details, add each truthy genre id, and commit; any exception (a failed
fetch, or a foreign-key violation at commit, e.g. a genre id that was
never synced into `genres`) rolls back this card's transaction only. -/
def genre_sync_one (details : Int → Option MovieDetails) (db : Db) (card : DeckCard) : Db :=
  match details card.id with
  | none => db
  | some d =>
    let mgs2 := d.genres.foldl (fun mgs g =>
      match g with
      | some gid => if gid ≠ 0 then add_movie_genre mgs card.id gid else mgs
      | none => mgs) db.movie_genres
    if (mgs2.filter (fun r => !(db.movie_genres.contains r))).all
        (fun r => db.movies.any (fun m => m.id == r.1) && db.genres.any (fun g => g.id == r.2))
    then { db with movie_genres := mgs2 }
    else db

/-- The movie-save side effect of `get_deck` (lines 126-137). -/
def save_deck_movies (db : Db) (cards : List DeckCard) : Db :=
  cards.foldl (fun d c =>
    create_or_update_movie d c.id c.title c.release_date c.poster_path c.backdrop_path
      c.overview) db

/-- The deck response dict. -/
structure DeckResp where
  results : List DeckCard
  cursor : Option String
  has_more : Bool
deriving DecidableEq

/-- A decoded cursor component used as a Python int: ints stand for
themselves and bools coerce (`True <= 500` is valid Python). Any other
decoded value makes the loop raise a `TypeError`. -/
def pyAsInt : PyJson → Option Int
  | .int n => some n
  | .bool b => some (if b then 1 else 0)
  | _ => none

/-- The seen-set of `get_deck`: the union of the user's swiped,
master-list and watch-later movie ids, empty when the email resolves to
no Store record. -/
def deck_seen (db : Db) (user_id : String) : List Int :=
  match get_user_by_email db user_id with
  | some u => get_user_seen_movie_ids db u.id
  | none => []

/-- `get_deck`: decode the cursor (`decode_cursor(cursor) if cursor else
(1, 0)`; note that the empty string is falsy), resolve the seen set,
run the loop, save the movies, run the per-movie genre sync, and return
the response. `none` models the request failing on a cursor that
decoded to non-numeric components. -/
def get_deck (feed : Int → List TmdbMovie) (details : Int → Option MovieDetails)
    (db : Db) (user_id : String) (limit : Int) (cursor : Option String) :
    Option (DeckResp × Db) :=
  let pos : Option (Int × Int) :=
    match cursor with
    | some s =>
      if s = "" then some (1, 0)
      else
        match pyAsInt (decode_cursor s).1, pyAsInt (decode_cursor s).2 with
        | some p, some i => some (p, i)
        | _, _ => none
    | none => some (1, 0)
  match pos with
  | none => none
  | some pi =>
    let r := getDeckCore feed (deck_seen db user_id) limit pi.1 pi.2
    let db1 := save_deck_movies db r.1
    let db2 := r.1.foldl (genre_sync_one details) db1
    some ({ results := r.1, cursor := r.2.1.map (fun c => encode_cursor c.1 c.2),
            has_more := r.2.2 }, db2)

/-! ### Reference view of the upstream feed

For the pagination proofs the feed visible to the loop is flattened into
a single stream of `(page, index_within_page, entry)` triples: pages
from the start position up to the 500 ceiling, the first page sliced at
the start index, later pages whole, and the stream truncated at the
first empty upstream page (which terminates the loop). -/

/-- Attach `(page, index)` positions to a page's entries, starting the
index at `i`. -/
def withIdx (page : Int) : Int → List TmdbMovie → List (Int × Int × TmdbMovie)
  | _, [] => []
  | i, m :: rest => (page, i, m) :: withIdx page (i + 1) rest

/-- Flatten the feed from `(page, idx)` with one fuel per page. -/
def flattenF (feed : Int → List TmdbMovie) : Nat → Int → Int → List (Int × Int × TmdbMovie)
  | 0, _, _ => []
  | fuel + 1, page, idx =>
    if page ≤ 500 then
      if feed page = [] then []
      else withIdx page idx (pySliceFrom (feed page) idx) ++ flattenF feed fuel (page + 1) 0
    else []

/-- The stream of entries the loop can see from a start position. -/
def feedStream (feed : Int → List TmdbMovie) (sp si : Int) : List (Int × Int × TmdbMovie) :=
  flattenF feed ((501 - sp).toNat) sp si

/-- Reference collector over the flattened stream: skip seen ids, append
cards, and at the entry where the limit is reached return the cursor one
past that entry's position. -/
def refGo (seen : List Int) (limit : Int) :
    List (Int × Int × TmdbMovie) → List DeckCard → List DeckCard × Option (Int × Int) × Bool
  | [], cards => (cards, none, false)
  | e :: rest, cards =>
    if e.2.2.id ∈ seen then refGo seen limit rest cards
    else
      let cards2 := cards ++ [mkDeckCard e.2.2]
      if limit ≤ (cards2.length : Int) then (cards2, some (e.1, e.2.1 + 1), true)
      else refGo seen limit rest cards2

/-- Unseen-entry test for stream entries. -/
def unseenB (seen : List Int) (e : Int × Int × TmdbMovie) : Bool := decide (e.2.2.id ∉ seen)

/-! ### A small concrete instance (used by the witnesses) -/

/-- A feed entry with only id and title. -/
def demoMovie (i : Int) (t : String) : TmdbMovie := { id := i, title := some t }

/-- A one-page upstream feed: page 1 is `[550, 680, 13]`, later pages
are empty. -/
def demoFeed : Int → List TmdbMovie := fun p =>
  if p = 1 then
    [demoMovie 550 "Fight Club", demoMovie 680 "Pulp Fiction", demoMovie 13 "Forrest Gump"]
  else []

/-- A store with one user `demo` who swiped movie 550. -/
def demoDb : Db :=
  { users := [{ id := 0, email := "demo", created_at := 0 }],
    movies := [], genres := [], movie_genres := [],
    swipes := [{ user_id := 0, movie_id := 550, decision := 1, swiped_at := 0 }],
    master_list := [], watch_later := [], friendships := [],
    next_uuid := 1, clock := 0 }

/-- A details source whose every fetch fails. -/
def demoDetails : Int → Option MovieDetails := fun _ => none

/-- The deck response of the demo call with limit 2. -/
def demoDeckResp : DeckResp :=
  { results := [mkDeckCard (demoMovie 680 "Pulp Fiction"),
                mkDeckCard (demoMovie 13 "Forrest Gump")],
    cursor := some (encode_cursor 1 3), has_more := true }

/-! ### Helper lemmas about first-match lookup and update -/

theorem find?_append_first {α : Type} (q : α → Bool) (pre post : List α) (x : α)
    (hpre : ∀ y ∈ pre, q y = false) (hx : q x = true) :
    (pre ++ x :: post).find? q = some x := by
  induction pre with
  | nil => simp [List.find?_cons_of_pos, hx]
  | cons a t ih =>
    rw [List.cons_append, List.find?_cons_of_neg _ (by simp [hpre a (by simp)])]
    exact ih (fun y hy => hpre y (by simp [hy]))

theorem updateFirst_append {α : Type} (q : α → Bool) (f : α → α) (pre post : List α) (x : α)
    (hpre : ∀ y ∈ pre, q y = false) (hx : q x = true) :
    updateFirst q f (pre ++ x :: post) = pre ++ f x :: post := by
  induction pre with
  | nil => simp [updateFirst, hx]
  | cons a t ih =>
    rw [List.cons_append, updateFirst, if_neg (by simp [hpre a (by simp)]),
      ih (fun y hy => hpre y (by simp [hy]))]
    simp

theorem updateFirst_no_match {α : Type} (q : α → Bool) (f : α → α) (l : List α)
    (h : ∀ y ∈ l, q y = false) : updateFirst q f l = l := by
  induction l with
  | nil => rfl
  | cons a t ih =>
    rw [updateFirst, if_neg (by simp [h a (by simp)])]
    rw [ih (fun y hy => h y (by simp [hy]))]

/-- C8. For an existing master-list item, both the upsert
(`create_or_update_master_list_item`) and the update
(`update_master_list_item`) with only a rating supplied rewrite the
rating and leave the stored notes untouched, and symmetrically an update
with only notes supplied leaves the stored rating untouched: fields not
explicitly supplied are preserved. -/
theorem master_list_partial_update_preserves_fields
    (pre post : List MasterListRow) (row : MasterListRow) (uid : Nat) (mid : Int)
    (r : Rat) (n : String) (now : Nat)
    (hpre : ∀ y ∈ pre, ¬(y.user_id = uid ∧ y.movie_id = mid))
    (hu : row.user_id = uid) (hm : row.movie_id = mid) :
    create_or_update_master_list_item (pre ++ row :: post) uid mid (some r) none now
        = pre ++ { row with rating := some r } :: post
    ∧ create_or_update_master_list_item (pre ++ row :: post) uid mid none (some n) now
        = pre ++ { row with notes := some n } :: post
    ∧ update_master_list_item (pre ++ row :: post) uid mid (some r) none
        = pre ++ { row with rating := some r } :: post
    ∧ update_master_list_item (pre ++ row :: post) uid mid none (some n)
        = pre ++ { row with notes := some n } :: post := by
  have hq : (fun x : MasterListRow => x.user_id == uid && x.movie_id == mid) row = true := by
    simp [hu, hm]
  have hqpre : ∀ y ∈ pre, (fun x : MasterListRow =>
      x.user_id == uid && x.movie_id == mid) y = false := by
    intro y hy
    have := hpre y hy
    simp only [Bool.and_eq_false_iff, beq_eq_false_iff_ne]
    by_cases h1 : y.user_id = uid
    · exact Or.inr (fun h2 => this ⟨h1, h2⟩)
    · exact Or.inl h1
  have hfind := find?_append_first _ pre post row hqpre hq
  refine ⟨?_, ?_, ?_, ?_⟩ <;>
    simp only [create_or_update_master_list_item, update_master_list_item, hfind,
      Option.isSome_some, if_true] <;>
    rw [updateFirst_append _ _ pre post row hqpre hq]

/-- Witness for C8 at a concrete store state. -/
theorem master_list_partial_update_preserves_fields_witness :
    create_or_update_master_list_item
        [{ user_id := 1, movie_id := 550, rating := none, notes := some "classic",
           added_at := 3 }] 1 550 (some 4) none 9
      = [{ user_id := 1, movie_id := 550, rating := some 4, notes := some "classic",
           added_at := 3 }]
    ∧ create_or_update_master_list_item
        [{ user_id := 1, movie_id := 550, rating := none, notes := some "classic",
           added_at := 3 }] 1 550 none (some "seen twice") 9
      = [{ user_id := 1, movie_id := 550, rating := none, notes := some "seen twice",
           added_at := 3 }]
    ∧ update_master_list_item
        [{ user_id := 1, movie_id := 550, rating := none, notes := some "classic",
           added_at := 3 }] 1 550 (some 4) none
      = [{ user_id := 1, movie_id := 550, rating := some 4, notes := some "classic",
           added_at := 3 }]
    ∧ update_master_list_item
        [{ user_id := 1, movie_id := 550, rating := none, notes := some "classic",
           added_at := 3 }] 1 550 none (some "seen twice")
      = [{ user_id := 1, movie_id := 550, rating := none, notes := some "seen twice",
           added_at := 3 }] :=
  master_list_partial_update_preserves_fields [] []
    { user_id := 1, movie_id := 550, rating := none, notes := some "classic", added_at := 3 }
    1 550 4 "seen twice" 9 (by simp) rfl rfl

/-- C10. `send_friend_request` looks up only the directed `(U, F)` row:
whatever status that row currently has (pending, accepted or blocked),
it is overwritten to `pending`, and every other friendship row —
including any row stored in the opposite direction `(F, U)` sitting in
`pre` or `post` — passes through unchanged, because the lookup predicate
never matches it. -/
theorem send_friend_request_overwrites_to_pending
    (db : Db) (uEmail fEmail : String) (u f : UserRow)
    (pre post : List FriendshipRow) (row : FriendshipRow)
    (hu : get_user_by_email db uEmail = some u)
    (hf : get_user_by_email db fEmail = some f)
    (hne : u.id ≠ f.id)
    (hrows : db.friendships = pre ++ row :: post)
    (hru : row.user_id = u.id) (hrf : row.friend_id = f.id)
    (hpre : ∀ y ∈ pre, ¬(y.user_id = u.id ∧ y.friend_id = f.id)) :
    send_friend_request db uEmail fEmail
      = .ok { db with friendships := pre ++ { row with status := "pending" } :: post } := by
  have hq : (fun x : FriendshipRow => x.user_id == u.id && x.friend_id == f.id) row = true := by
    simp [hru, hrf]
  have hqpre : ∀ y ∈ pre, (fun x : FriendshipRow =>
      x.user_id == u.id && x.friend_id == f.id) y = false := by
    intro y hy
    have := hpre y hy
    simp only [Bool.and_eq_false_iff, beq_eq_false_iff_ne]
    by_cases h1 : y.user_id = u.id
    · exact Or.inr (fun h2 => this ⟨h1, h2⟩)
    · exact Or.inl h1
  have hfind := find?_append_first _ pre post row hqpre hq
  simp only [send_friend_request, hu, hf, if_neg hne, create_or_update_friendship, hrows,
    hfind, Option.isSome_some, if_true]
  rw [updateFirst_append _ _ pre post row hqpre hq]

/-- Witness for C10: a previously accepted `(U, F)` row is downgraded to
pending while the opposite-direction `(F, U)` row is untouched. -/
theorem send_friend_request_overwrites_to_pending_witness :
    send_friend_request
        { users := [{ id := 0, email := "a@x", created_at := 0 },
                    { id := 1, email := "b@x", created_at := 0 }],
          movies := [], genres := [], movie_genres := [], swipes := [], master_list := [],
          watch_later := [],
          friendships := [{ user_id := 0, friend_id := 1, status := "accepted", created_at := 5 },
                          { user_id := 1, friend_id := 0, status := "blocked", created_at := 6 }],
          next_uuid := 2, clock := 9 } "a@x" "b@x"
      = .ok
        { users := [{ id := 0, email := "a@x", created_at := 0 },
                    { id := 1, email := "b@x", created_at := 0 }],
          movies := [], genres := [], movie_genres := [], swipes := [], master_list := [],
          watch_later := [],
          friendships := [{ user_id := 0, friend_id := 1, status := "pending", created_at := 5 },
                          { user_id := 1, friend_id := 0, status := "blocked", created_at := 6 }],
          next_uuid := 2, clock := 9 } :=
  send_friend_request_overwrites_to_pending _ "a@x" "b@x"
    { id := 0, email := "a@x", created_at := 0 } { id := 1, email := "b@x", created_at := 0 }
    [] [{ user_id := 1, friend_id := 0, status := "blocked", created_at := 6 }]
    { user_id := 0, friend_id := 1, status := "accepted", created_at := 5 }
    rfl rfl (by decide) rfl rfl rfl (by simp)

theorem filter_sub {α : Type} (p q : α → Bool) (l res : List α)
    (himp : ∀ x, q x = true → p x = true) (hp : l.filter p = res) :
    l.filter q = res.filter q := by
  calc l.filter q = l.filter (fun x => q x && p x) := by
        apply List.filter_congr
        intro x _
        cases hq : q x
        · simp
        · simp [himp x hq]
    _ = (l.filter p).filter q := (@List.filter_filter _ q p l).symm
    _ = res.filter q := by rw [hp]

/-- C9. With a single accepted friendship row touching users A or B,
stored with A as initiator, the accepted-friends query unions the
initiator-side and target-side rows and resolves the other party per
row: A's friends list is exactly B once, and B's friends list is exactly
A once. -/
theorem accepted_friends_list_symmetric
    (db : Db) (a b : UserRow) (t : Nat)
    (ha : get_user_by_email db a.email = some a)
    (hb : get_user_by_email db b.email = some b)
    (haid : get_user_by_id db a.id = some a)
    (hbid : get_user_by_id db b.id = some b)
    (hne : a.id ≠ b.id)
    (hrow : db.friendships.filter
        (fun r => (r.user_id == a.id || r.friend_id == a.id || r.user_id == b.id ||
          r.friend_id == b.id) && r.status == "accepted")
      = [{ user_id := a.id, friend_id := b.id, status := "accepted", created_at := t }]) :
    get_user_friends_list db a.email
        = [{ id := toString b.id, email := b.email, status := "accepted", created_at := t }]
    ∧ get_user_friends_list db b.email
        = [{ id := toString a.id, email := a.email, status := "accepted", created_at := t }] := by
  have houtA := filter_sub _ (fun r : FriendshipRow => r.user_id == a.id &&
    r.status == "accepted") _ _ (by intro x hx; simp_all) hrow
  have hinA := filter_sub _ (fun r : FriendshipRow => r.friend_id == a.id &&
    r.status == "accepted") _ _ (by intro x hx; simp_all) hrow
  have houtB := filter_sub _ (fun r : FriendshipRow => r.user_id == b.id &&
    r.status == "accepted") _ _ (by intro x hx; simp_all) hrow
  have hinB := filter_sub _ (fun r : FriendshipRow => r.friend_id == b.id &&
    r.status == "accepted") _ _ (by intro x hx; simp_all) hrow
  simp only [List.filter_cons, List.filter_nil] at houtA hinA houtB hinB
  rw [if_pos (by simp)] at houtA
  rw [if_neg (by simp [Ne.symm hne])] at hinA
  rw [if_neg (by simp [hne])] at houtB
  rw [if_pos (by simp)] at hinB
  constructor
  · simp [get_user_friends_list, ha, get_user_friends, houtA, hinA, hbid]
  · simp [get_user_friends_list, hb, get_user_friends, houtB, hinB, haid]

/-- Witness for C9 at a concrete two-user store. -/
theorem accepted_friends_list_symmetric_witness :
    get_user_friends_list
        { users := [{ id := 0, email := "a@x", created_at := 0 },
                    { id := 1, email := "b@x", created_at := 0 }],
          movies := [], genres := [], movie_genres := [], swipes := [], master_list := [],
          watch_later := [],
          friendships := [{ user_id := 0, friend_id := 1, status := "accepted",
                            created_at := 7 }],
          next_uuid := 2, clock := 9 } "a@x"
      = [{ id := toString (1 : Nat), email := "b@x", status := "accepted", created_at := 7 }]
    ∧ get_user_friends_list
        { users := [{ id := 0, email := "a@x", created_at := 0 },
                    { id := 1, email := "b@x", created_at := 0 }],
          movies := [], genres := [], movie_genres := [], swipes := [], master_list := [],
          watch_later := [],
          friendships := [{ user_id := 0, friend_id := 1, status := "accepted",
                            created_at := 7 }],
          next_uuid := 2, clock := 9 } "b@x"
      = [{ id := toString (0 : Nat), email := "a@x", status := "accepted", created_at := 7 }] :=
  accepted_friends_list_symmetric _
    { id := 0, email := "a@x", created_at := 0 } { id := 1, email := "b@x", created_at := 0 }
    7 rfl rfl rfl rfl (by decide) (by decide)

theorem ensure_movie_exists_frame (db : Db) (mid : Int) :
    (ensure_movie_exists db mid).users = db.users ∧
    (ensure_movie_exists db mid).swipes = db.swipes ∧
    (ensure_movie_exists db mid).clock = db.clock := by
  unfold ensure_movie_exists
  split <;> exact ⟨rfl, rfl, rfl⟩

theorem ensure_movie_exists_found (db : Db) (mid : Int) :
    ((ensure_movie_exists db mid).movies.find? (fun m => m.id == mid)).isSome = true := by
  unfold ensure_movie_exists
  split
  · assumption
  · simp [List.find?_append]

theorem dup_msg_is_conflict :
    (containsSub (pyLower pgDuplicateKeyMsg) ("duplicate")
      || containsSub (pyLower pgDuplicateKeyMsg) ("already")) = true := by
  decide

/-- C7. A first swipe on a `(user, movie)` pair commits and stores the
swipe row; repeating the same pair hits the Store's composite primary
key, whose duplicate-key error the `/swipe` route maps to a 409
Conflict (`Already swiped`) — distinct from the generic 400 validation
answer — after rolling back, so the stored first swipe is unchanged.
The two hypotheses say the pair has not been swiped yet and that stored
swipes reference allocated UUIDs (a Store foreign-key invariant). -/
theorem swipe_then_swipe_conflicts
    (db : Db) (uid : String) (mid : Int) (dec dec2 : String)
    (hfirst : ∀ u, get_user_by_email db uid = some u →
      ∀ s ∈ db.swipes, ¬(s.user_id = u.id ∧ s.movie_id = mid))
    (hwf : ∀ s ∈ db.swipes, s.user_id < db.next_uuid) :
    ∃ uidN db1,
      swipe_route db uid mid dec
          = .ok { ok := true, user_id := uid, movie_id := mid, decision := dec } db1
      ∧ ({ user_id := uidN, movie_id := mid, decision := decision_to_int dec,
           swiped_at := db.clock } : SwipeRow) ∈ db1.swipes
      ∧ swipe_route db1 uid mid dec2 = .err 409 "Already swiped" db1 := by
  have main : ∀ dbA : Db, ∀ u : UserRow,
      ensure_user_exists db uid = (dbA, u) →
      dbA.swipes = db.swipes → dbA.clock = db.clock →
      get_user_by_email dbA uid = some u →
      (∀ s ∈ db.swipes, ¬(s.user_id = u.id ∧ s.movie_id = mid)) →
      ∃ uidN db1,
        swipe_route db uid mid dec
            = .ok { ok := true, user_id := uid, movie_id := mid, decision := dec } db1
        ∧ ({ user_id := uidN, movie_id := mid, decision := decision_to_int dec,
             swiped_at := db.clock } : SwipeRow) ∈ db1.swipes
        ∧ swipe_route db1 uid mid dec2 = .err 409 "Already swiped" db1 := by
    intro dbA u hens hAs hAc hAfind hnone
    obtain ⟨hmu, hms, hmc⟩ := ensure_movie_exists_frame dbA mid
    set row : SwipeRow :=
      { user_id := u.id, movie_id := mid, decision := decision_to_int dec,
        swiped_at := db.clock } with hrow
    set db1 : Db :=
      { ensure_movie_exists dbA mid with
        swipes := (ensure_movie_exists dbA mid).swipes ++ [row] } with hdb1
    have hany : (ensure_movie_exists dbA mid).swipes.any
        (fun s => s.user_id == u.id && s.movie_id == mid) = false := by
      rw [hms, hAs, List.any_eq_false]
      intro s hs
      have := hnone s hs
      simp only [Bool.not_eq_true, Bool.and_eq_false_iff, beq_eq_false_iff_ne]
      by_cases h1 : s.user_id = u.id
      · exact Or.inr (fun h2 => this ⟨h1, h2⟩)
      · exact Or.inl h1
    have hu2 : get_user_by_email db1 uid = some u := by
      simp only [get_user_by_email, hdb1] at hAfind ⊢
      rw [hmu]
      exact hAfind
    have hu3 : ensure_user_exists db1 uid = (db1, u) := by
      simp [ensure_user_exists, hu2]
    obtain ⟨hmu2, hms2, hmc2⟩ := ensure_movie_exists_frame db1 mid
    have hany2 : (ensure_movie_exists db1 mid).swipes.any
        (fun s => s.user_id == u.id && s.movie_id == mid) = true := by
      rw [hms2]
      simp only [List.any_eq_true]
      exact ⟨row, by simp [hdb1], by simp [hrow]⟩
    refine ⟨u.id, db1, ?_, ?_, ?_⟩
    · simp only [swipe_route, process_swipe, hens, hany, Bool.false_eq_true, if_false,
        hdb1, hrow, hmc, hAc]
    · simp [hdb1, hrow]
    · simp only [swipe_route, process_swipe, hu3, hany2, if_true, dup_msg_is_conflict]
  cases hu : get_user_by_email db uid with
  | some u =>
    exact main db u (by simp [ensure_user_exists, hu]) rfl rfl hu (hfirst u hu)
  | none =>
    refine main { db with
        users := db.users ++ [⟨db.next_uuid, uid, db.clock⟩],
        next_uuid := db.next_uuid + 1 } ⟨db.next_uuid, uid, db.clock⟩
      (by simp [ensure_user_exists, hu]) rfl rfl ?_ ?_
    · simp only [get_user_by_email] at hu ⊢
      simp [List.find?_append, hu]
    · intro s hs
      have := hwf s hs
      exact fun h => by simp at h; omega

/-- Witness for C7: swiping `(demo, 550)` twice on an empty store. -/
theorem swipe_then_swipe_conflicts_witness :
    ∃ uidN db1,
      swipe_route
          { users := [], movies := [], genres := [], movie_genres := [], swipes := [],
            master_list := [], watch_later := [], friendships := [], next_uuid := 0,
            clock := 0 } "demo" 550 "like"
          = .ok { ok := true, user_id := "demo", movie_id := 550, decision := "like" } db1
      ∧ ({ user_id := uidN, movie_id := 550, decision := decision_to_int "like",
           swiped_at := 0 } : SwipeRow) ∈ db1.swipes
      ∧ swipe_route db1 "demo" 550 "nope" = .err 409 "Already swiped" db1 :=
  swipe_then_swipe_conflicts
    { users := [], movies := [], genres := [], movie_genres := [], swipes := [],
      master_list := [], watch_later := [], friendships := [], next_uuid := 0, clock := 0 }
    "demo" 550 "like" "nope" (by simp [get_user_by_email]) (by simp)

/-! ### Characterization of the loop against the flattened stream -/

theorem pySliceFrom_zero {α : Type} (l : List α) : pySliceFrom l 0 = l := by
  simp [pySliceFrom]

theorem pySliceFrom_nonneg {α : Type} (l : List α) (i : Int) (h : 0 ≤ i) :
    pySliceFrom l i = l.drop i.toNat := by
  rw [pySliceFrom, if_neg (by omega)]

theorem pySliceFrom_step {α : Type} (l : List α) (i : Int) (x : α) (xs : List α)
    (h0 : 0 ≤ i) (h : pySliceFrom l i = x :: xs) : pySliceFrom l (i + 1) = xs := by
  rw [pySliceFrom_nonneg _ _ h0] at h
  rw [pySliceFrom_nonneg _ _ (by omega)]
  calc l.drop (i + 1).toNat = l.drop (i.toNat + 1) := by congr 1; omega
    _ = (l.drop i.toNat).drop 1 := (List.drop_drop 1 i.toNat l).symm
    _ = (x :: xs).drop 1 := by rw [h]
    _ = xs := rfl

theorem scanPage_refGo_some (seen : List Int) (limit : Int) (page base : Int) :
    ∀ (entries : List TmdbMovie) (idx0 : Nat) (cards out : List DeckCard) (cur : Int × Int)
      (rest : List (Int × Int × TmdbMovie)) (j : Int), j = base + (idx0 : Int) →
      scanPage seen limit page base entries idx0 cards = (out, some cur) →
      refGo seen limit (withIdx page j entries ++ rest) cards = (out, some cur, true) := by
  intro entries
  induction entries with
  | nil =>
    intro idx0 cards out cur rest j hj h
    simp [scanPage] at h
  | cons m tl ih =>
    intro idx0 cards out cur rest j hj h
    rw [withIdx, List.cons_append, refGo]
    simp only [scanPage] at h
    by_cases hseen : m.id ∈ seen
    · rw [if_pos hseen] at h ⊢
      exact ih (idx0 + 1) cards out cur rest (j + 1) (by push_cast; omega) h
    · rw [if_neg hseen] at h ⊢
      by_cases hlim : limit ≤ ((cards ++ [mkDeckCard m]).length : Int)
      · rw [if_pos hlim] at h ⊢
        obtain ⟨h1, h2⟩ := Prod.mk.injEq .. ▸ h
        obtain h2 := Option.some.inj h2
        rw [h1, ← h2, hj]
      · rw [if_neg hlim] at h ⊢
        exact ih (idx0 + 1) _ out cur rest (j + 1) (by push_cast; omega) h

theorem scanPage_refGo_none (seen : List Int) (limit : Int) (page base : Int) :
    ∀ (entries : List TmdbMovie) (idx0 : Nat) (cards out : List DeckCard)
      (rest : List (Int × Int × TmdbMovie)) (j : Int), j = base + (idx0 : Int) →
      scanPage seen limit page base entries idx0 cards = (out, none) →
      refGo seen limit (withIdx page j entries ++ rest) cards = refGo seen limit rest out := by
  intro entries
  induction entries with
  | nil =>
    intro idx0 cards out rest j hj h
    simp only [scanPage] at h
    obtain ⟨h1, _⟩ := Prod.mk.injEq .. ▸ h
    rw [withIdx, List.nil_append, h1]
  | cons m tl ih =>
    intro idx0 cards out rest j hj h
    rw [withIdx, List.cons_append, refGo]
    simp only [scanPage] at h
    by_cases hseen : m.id ∈ seen
    · rw [if_pos hseen] at h ⊢
      exact ih (idx0 + 1) cards out rest (j + 1) (by push_cast; omega) h
    · rw [if_neg hseen] at h ⊢
      by_cases hlim : limit ≤ ((cards ++ [mkDeckCard m]).length : Int)
      · rw [if_pos hlim] at h
        exact absurd (Prod.mk.injEq .. ▸ h).2 (by simp)
      · rw [if_neg hlim] at h ⊢
        exact ih (idx0 + 1) _ out rest (j + 1) (by push_cast; omega) h

theorem scanPage_none_len (seen : List Int) (limit : Int) (page base : Int) :
    ∀ (entries : List TmdbMovie) (idx0 : Nat) (cards out : List DeckCard),
      (cards.length : Int) < limit →
      scanPage seen limit page base entries idx0 cards = (out, none) →
      (out.length : Int) < limit := by
  intro entries
  induction entries with
  | nil =>
    intro idx0 cards out hlt h
    simp only [scanPage] at h
    obtain ⟨h1, _⟩ := Prod.mk.injEq .. ▸ h
    rw [← h1]
    exact hlt
  | cons m tl ih =>
    intro idx0 cards out hlt h
    simp only [scanPage] at h
    by_cases hseen : m.id ∈ seen
    · rw [if_pos hseen] at h
      exact ih (idx0 + 1) cards out hlt h
    · rw [if_neg hseen] at h
      by_cases hlim : limit ≤ ((cards ++ [mkDeckCard m]).length : Int)
      · rw [if_pos hlim] at h
        exact absurd (Prod.mk.injEq .. ▸ h).2 (by simp)
      · rw [if_neg hlim] at h
        exact ih (idx0 + 1) _ out (by omega) h

theorem deckLoop_refGo (feed : Int → List TmdbMovie) (seen : List Int) (limit sp si : Int) :
    ∀ (fuel : Nat) (page curIdx : Int) (cards : List DeckCard),
      fuel = (501 - page).toNat →
      sp ≤ page → (page = sp → curIdx = si) → (sp < page → curIdx = 0) →
      (cards.length : Int) < limit →
      deckLoop feed seen limit sp si fuel page curIdx cards
        = refGo seen limit (flattenF feed fuel page curIdx) cards := by
  intro fuel
  induction fuel with
  | zero =>
    intro page curIdx cards hfuel hsp heq hlt hcards
    rfl
  | succ fuel ih =>
    intro page curIdx cards hfuel hsp heq hlt hcards
    have hpage : page ≤ 500 := by omega
    rw [deckLoop, if_pos ⟨hcards, hpage⟩, flattenF, if_pos hpage]
    by_cases hfp : feed page = []
    · rw [if_pos hfp, if_pos hfp]
      rfl
    · rw [if_neg hfp, if_neg hfp]
      have hres : (if page = sp then pySliceFrom (feed page) curIdx else feed page)
          = pySliceFrom (feed page) curIdx := by
        by_cases hps : page = sp
        · rw [if_pos hps]
        · rw [if_neg hps, hlt (by omega), pySliceFrom_zero]
      rw [hres]
      cases hscan : scanPage seen limit page curIdx (pySliceFrom (feed page) curIdx) 0 cards
        with
      | mk out ocur =>
        cases ocur with
        | some cur =>
          rw [scanPage_refGo_some seen limit page curIdx _ 0 cards out cur _ curIdx
            (by simp) hscan]
        | none =>
          rw [scanPage_refGo_none seen limit page curIdx _ 0 cards out _ curIdx
            (by simp) hscan]
          simp only [hscan]
          exact ih (page + 1) 0 out (by omega) (by omega) (by omega) (fun _ => rfl)
            (scanPage_none_len seen limit page curIdx _ 0 cards out hcards hscan)

theorem getDeckCore_refGo (feed : Int → List TmdbMovie) (seen : List Int)
    (limit sp si : Int) (h : 0 < limit) :
    getDeckCore feed seen limit sp si = refGo seen limit (feedStream feed sp si) [] :=
  deckLoop_refGo feed seen limit sp si _ sp si [] rfl le_rfl (fun _ => rfl)
    (fun hlt => absurd hlt (by omega)) (by simpa using h)

theorem getDeckCore_nonpos (feed : Int → List TmdbMovie) (seen : List Int)
    (limit sp si : Int) (h : limit ≤ 0) :
    getDeckCore feed seen limit sp si = ([], none, false) := by
  rw [getDeckCore]
  cases (501 - sp).toNat with
  | zero => rfl
  | succ n =>
    rw [deckLoop, if_neg]
    intro hc
    have := hc.1
    simp at this
    omega

theorem refGo_cards_closure (seen : List Int) (limit : Int) :
    ∀ (s : List (Int × Int × TmdbMovie)) (cards : List DeckCard),
      ∀ x ∈ (refGo seen limit s cards).1, x ∈ cards ∨ x.id ∉ seen := by
  intro s
  induction s with
  | nil => intro cards x hx; exact Or.inl hx
  | cons e tl ih =>
    intro cards x hx
    rw [refGo] at hx
    by_cases hseen : e.2.2.id ∈ seen
    · rw [if_pos hseen] at hx
      exact ih cards x hx
    · rw [if_neg hseen] at hx
      by_cases hlim : limit ≤ ((cards ++ [mkDeckCard e.2.2]).length : Int)
      · rw [if_pos hlim] at hx
        rcases List.mem_append.1 hx with hc | hc
        · exact Or.inl hc
        · rw [List.mem_singleton.1 hc]
          exact Or.inr hseen
      · rw [if_neg hlim] at hx
        rcases ih _ x hx with hc | hc
        · rcases List.mem_append.1 hc with hc2 | hc2
          · exact Or.inl hc2
          · rw [List.mem_singleton.1 hc2]
            exact Or.inr hseen
        · exact Or.inr hc

theorem refGo_has_more_eq (seen : List Int) (limit : Int) :
    ∀ (s : List (Int × Int × TmdbMovie)) (cards : List DeckCard),
      (refGo seen limit s cards).2.2 = (refGo seen limit s cards).2.1.isSome := by
  intro s
  induction s with
  | nil => intro cards; rfl
  | cons e tl ih =>
    intro cards
    rw [refGo]
    by_cases hseen : e.2.2.id ∈ seen
    · rw [if_pos hseen]; exact ih cards
    · rw [if_neg hseen]
      by_cases hlim : limit ≤ ((cards ++ [mkDeckCard e.2.2]).length : Int)
      · rw [if_pos hlim]; rfl
      · rw [if_neg hlim]; exact ih _

theorem refGo_cursor_reached (seen : List Int) (limit : Int) :
    ∀ (s : List (Int × Int × TmdbMovie)) (cards out : List DeckCard) (cur : Int × Int)
      (hm : Bool), refGo seen limit s cards = (out, some cur, hm) →
      limit ≤ (out.length : Int) := by
  intro s
  induction s with
  | nil =>
    intro cards out cur hm h
    simp [refGo] at h
  | cons e tl ih =>
    intro cards out cur hm h
    rw [refGo] at h
    by_cases hseen : e.2.2.id ∈ seen
    · rw [if_pos hseen] at h
      exact ih cards out cur hm h
    · rw [if_neg hseen] at h
      by_cases hlim : limit ≤ ((cards ++ [mkDeckCard e.2.2]).length : Int)
      · rw [if_pos hlim] at h
        obtain ⟨h1, _⟩ := Prod.mk.injEq .. ▸ h
        rw [← h1]
        exact hlim
      · rw [if_neg hlim] at h
        exact ih _ out cur hm h

/-- Any successful `get_deck` call is the core loop run from the decoded
start position, with the response fields and the final state read off
from it. -/
theorem get_deck_some (feed : Int → List TmdbMovie) (details : Int → Option MovieDetails)
    (db : Db) (user_id : String) (limit : Int) (cursor : Option String)
    (resp : DeckResp) (db2 : Db)
    (h : get_deck feed details db user_id limit cursor = some (resp, db2)) :
    ∃ sp si,
      resp.results = (getDeckCore feed (deck_seen db user_id) limit sp si).1
      ∧ resp.cursor = (getDeckCore feed (deck_seen db user_id) limit sp si).2.1.map
          (fun c => encode_cursor c.1 c.2)
      ∧ resp.has_more = (getDeckCore feed (deck_seen db user_id) limit sp si).2.2
      ∧ db2 = (getDeckCore feed (deck_seen db user_id) limit sp si).1.foldl
          (genre_sync_one details)
          (save_deck_movies db (getDeckCore feed (deck_seen db user_id) limit sp si).1) := by
  rcases cursor with _ | s
  · refine ⟨1, 0, ?_⟩
    simp only [get_deck, Option.some.injEq, Prod.mk.injEq] at h
    obtain ⟨h1, h2⟩ := h
    rw [← h1, ← h2]
    exact ⟨rfl, rfl, rfl, rfl⟩
  · by_cases hs : s = ""
    · refine ⟨1, 0, ?_⟩
      simp only [get_deck, hs, if_true, Option.some.injEq, Prod.mk.injEq] at h
      obtain ⟨h1, h2⟩ := h
      rw [← h1, ← h2]
      exact ⟨rfl, rfl, rfl, rfl⟩
    · rcases hp : pyAsInt (decode_cursor s).1 with _ | p <;>
        rcases hq : pyAsInt (decode_cursor s).2 with _ | q <;>
        simp only [get_deck, hs, if_false, hp, hq, Option.some.injEq, Prod.mk.injEq] at h
      · exact absurd h (by simp)
      · exact absurd h (by simp)
      · exact absurd h (by simp)
      · refine ⟨p, q, ?_⟩
        obtain ⟨h1, h2⟩ := h
        rw [← h1, ← h2]
        exact ⟨rfl, rfl, rfl, rfl⟩

/-- C3. For a user whose seen-set is the union of swiped, master-list
and watch-later movie ids (empty when the email resolves to no user
row), and a duplicate-free upstream feed, no card of any successful
deck-builder response carries an id of the seen-set. -/
theorem deck_excludes_seen_ids (feed : Int → List TmdbMovie)
    (details : Int → Option MovieDetails) (db : Db) (user_id : String) (limit : Int)
    (cursor : Option String) (resp : DeckResp) (db2 : Db)
    (hdup : ((feedStream feed 1 0).map (fun e => e.2.2.id)).Nodup)
    (h : get_deck feed details db user_id limit cursor = some (resp, db2)) :
    ∀ card ∈ resp.results, card.id ∉ deck_seen db user_id := by
  obtain ⟨sp, si, hres, -, -, -⟩ := get_deck_some feed details db user_id limit cursor
    resp db2 h
  intro card hc
  rw [hres] at hc
  by_cases hl : 0 < limit
  · rw [getDeckCore_refGo feed _ limit sp si hl] at hc
    rcases refGo_cards_closure _ _ _ _ card hc with h0 | h0
    · simp at h0
    · exact h0
  · rw [getDeckCore_nonpos feed _ limit sp si (by omega)] at hc
    simp at hc

/-- Witness for C3: the demo user swiped 550; the returned cards 680 and
13 avoid the seen-set. -/
theorem deck_excludes_seen_ids_witness :
    (mkDeckCard (demoMovie 680 "Pulp Fiction")).id ∉ deck_seen demoDb "demo" ∧
    (mkDeckCard (demoMovie 13 "Forrest Gump")).id ∉ deck_seen demoDb "demo" :=
  ⟨deck_excludes_seen_ids demoFeed demoDetails demoDb "demo" 2 none _ _ (by decide) rfl
      (mkDeckCard (demoMovie 680 "Pulp Fiction")) (by decide),
   deck_excludes_seen_ids demoFeed demoDetails demoDb "demo" 2 none _ _ (by decide) rfl
      (mkDeckCard (demoMovie 13 "Forrest Gump")) (by decide)⟩

/-- C5. When the loop ends before the result list reaches the limit —
which happens exactly when the upstream returned an empty page or the
page-500 ceiling was passed first — the response reports `has_more =
false` and carries no next cursor. -/
theorem deck_exhausted_no_cursor (feed : Int → List TmdbMovie)
    (details : Int → Option MovieDetails) (db : Db) (user_id : String) (limit : Int)
    (cursor : Option String) (resp : DeckResp) (db2 : Db)
    (h : get_deck feed details db user_id limit cursor = some (resp, db2))
    (hlt : (resp.results.length : Int) < limit) :
    resp.has_more = false ∧ resp.cursor = none := by
  obtain ⟨sp, si, hres, hcur, hhm, -⟩ := get_deck_some feed details db user_id limit cursor
    resp db2 h
  by_cases hl : 0 < limit
  · have hchar := getDeckCore_refGo feed (deck_seen db user_id) limit sp si hl
    rcases hoc : (getDeckCore feed (deck_seen db user_id) limit sp si).2.1 with _ | cur
    · refine ⟨?_, by rw [hcur, hoc]; rfl⟩
      rw [hhm, hchar, refGo_has_more_eq, ← hchar, hoc]
      rfl
    · exfalso
      have hfull : refGo (deck_seen db user_id) limit (feedStream feed sp si) []
          = ((getDeckCore feed (deck_seen db user_id) limit sp si).1, some cur,
             (getDeckCore feed (deck_seen db user_id) limit sp si).2.2) := by
        rw [← hchar, ← hoc]
      have := refGo_cursor_reached _ _ _ _ _ _ _ hfull
      rw [hres] at hlt
      omega
  · rw [getDeckCore_nonpos feed _ limit sp si (by omega)] at hcur hhm
    exact ⟨hhm, by rw [hcur]; rfl⟩

/-- Witness for C5: with limit 5 the demo feed is exhausted after two
unseen entries, so the call reports no more results and no cursor. -/
theorem deck_exhausted_no_cursor_witness :
    ({ results := [mkDeckCard (demoMovie 680 "Pulp Fiction"),
                   mkDeckCard (demoMovie 13 "Forrest Gump")],
       cursor := none, has_more := false } : DeckResp).has_more = false
    ∧ ({ results := [mkDeckCard (demoMovie 680 "Pulp Fiction"),
                     mkDeckCard (demoMovie 13 "Forrest Gump")],
         cursor := none, has_more := false } : DeckResp).cursor = none :=
  deck_exhausted_no_cursor demoFeed demoDetails demoDb "demo" 5 none _ _ rfl (by decide)

theorem refGo_reach (seen : List Int) (limit : Int) :
    ∀ (s : List (Int × Int × TmdbMovie)) (cards : List DeckCard),
      (cards.length : Int) < limit →
      limit ≤ (cards.length : Int) + (s.countP (unseenB seen) : Int) →
      ∃ p a m, (s.filter (unseenB seen))[(limit - (cards.length : Int) - 1).toNat]?
          = some (p, a, m)
        ∧ refGo seen limit s cards
          = (cards ++ ((s.filter (unseenB seen)).take
                ((limit - (cards.length : Int)).toNat)).map (fun e => mkDeckCard e.2.2),
             some (p, a + 1), true) := by
  intro s
  induction s with
  | nil =>
    intro cards hlt hcount
    simp only [List.countP_nil] at hcount
    omega
  | cons e tl ih =>
    intro cards hlt hcount
    by_cases hs : e.2.2.id ∈ seen
    · have hub : unseenB seen e = false := by simp [unseenB, hs]
      rw [List.countP_cons_of_neg _ _ (by simp [hub])] at hcount
      obtain ⟨p, a, m, hget, hrun⟩ := ih cards hlt hcount
      refine ⟨p, a, m, ?_, ?_⟩
      · rw [List.filter_cons_of_neg (by simp [hub])]
        exact hget
      · rw [refGo, if_pos hs, List.filter_cons_of_neg (by simp [hub])]
        exact hrun
    · have hub : unseenB seen e = true := by simp [unseenB, hs]
      rw [List.countP_cons_of_pos _ _ (by simp [hub])] at hcount
      rw [List.filter_cons_of_pos (by simp [hub])]
      push_cast at hcount
      have hlen : (((cards ++ [mkDeckCard e.2.2]).length : Nat) : Int)
          = (cards.length : Int) + 1 := by simp
      by_cases hlim : limit ≤ ((cards ++ [mkDeckCard e.2.2]).length : Int)
      · have hone : limit = (cards.length : Int) + 1 := by
          rw [hlen] at hlim
          omega
        have hidx : (limit - (cards.length : Int) - 1).toNat = 0 := by omega
        have htake : (limit - (cards.length : Int)).toNat = 1 := by omega
        refine ⟨e.1, e.2.1, e.2.2, ?_, ?_⟩
        · rw [hidx]
          simp
        · rw [refGo, if_neg hs, if_pos hlim, htake, List.take_succ_cons, List.take_zero]
          rfl
      · have hlim2 : ¬ limit ≤ (cards.length : Int) + 1 := by
          rw [← hlen]
          exact hlim
        obtain ⟨p, a, m, hget, hrun⟩ := ih (cards ++ [mkDeckCard e.2.2])
          (by rw [hlen]; omega) (by rw [hlen]; omega)
        rw [hlen] at hget hrun
        refine ⟨p, a, m, ?_, ?_⟩
        · have hstep : (limit - (cards.length : Int) - 1).toNat
              = (limit - ((cards.length : Int) + 1) - 1).toNat + 1 := by omega
          rw [hstep, List.getElem?_cons_succ]
          exact hget
        · have htk : (limit - (cards.length : Int)).toNat
              = (limit - ((cards.length : Int) + 1)).toNat + 1 := by omega
          rw [refGo, if_neg hs, if_neg hlim, hrun, htk, List.take_succ_cons]
          simp

/-- C2. With a positive limit L and at least L unseen entries in the
feed visible within the page-500 ceiling, the deck builder returns
exactly L cards with `has_more = true`, and its cursor encodes
`(page, index + 1)` where `(page, index)` is the position of the L-th
unseen entry — one past the last entry examined. In particular, with
seen-set containing 550, upstream page 1 equal to `[550, 680, 13]` and
limit 2, the result is `[680, 13]` with cursor `(page 1, index 3)` and
`has_more = true`. -/
theorem deck_limit_reached_exact
    (feed : Int → List TmdbMovie) (details : Int → Option MovieDetails) (db : Db)
    (user_id : String) (limit : Int) (resp : DeckResp) (db2 : Db)
    (hl : 0 < limit)
    (hcount : limit ≤ ((feedStream feed 1 0).countP (unseenB (deck_seen db user_id)) : Int))
    (h : get_deck feed details db user_id limit none = some (resp, db2)) :
    ((resp.results.length : Int) = limit ∧ resp.has_more = true
      ∧ ∃ p a m,
          ((feedStream feed 1 0).filter (unseenB (deck_seen db user_id)))[(limit - 1).toNat]?
            = some (p, a, m)
          ∧ resp.cursor = some (encode_cursor p (a + 1)))
    ∧ (∃ respd db2d,
        get_deck demoFeed demoDetails demoDb "demo" 2 none = some (respd, db2d)
        ∧ respd.results.map (fun c => c.id) = [680, 13]
        ∧ respd.cursor = some (encode_cursor 1 3)
        ∧ respd.has_more = true) := by
  constructor
  · simp only [get_deck, Option.some.injEq, Prod.mk.injEq] at h
    obtain ⟨h1, -⟩ := h
    obtain ⟨p, a, m, hget, hrun⟩ := refGo_reach (deck_seen db user_id) limit
      (feedStream feed 1 0) [] (by simpa using hl) (by simpa using hcount)
    rw [getDeckCore_refGo feed _ limit 1 0 hl, hrun] at h1
    rw [List.countP_eq_length_filter] at hcount
    refine ⟨?_, ?_, p, a, m, ?_, ?_⟩
    · rw [← h1]
      simp only [List.nil_append, List.length_map, List.length_take, List.length_nil,
        Nat.cast_zero]
      rw [Nat.min_def]
      split <;> omega
    · rw [← h1]
    · simpa using hget
    · rw [← h1]
      simp
  · exact ⟨demoDeckResp, _, rfl, rfl, rfl, rfl⟩

/-- Witness for C2 at the demo instance (limit 2, seen-set containing
550, page 1 equal to `[550, 680, 13]`). -/
theorem deck_limit_reached_exact_witness :
    (((demoDeckResp.results.length : Int) = 2 ∧ demoDeckResp.has_more = true
      ∧ ∃ p a m,
          ((feedStream demoFeed 1 0).filter
            (unseenB (deck_seen demoDb "demo")))[((2 : Int) - 1).toNat]? = some (p, a, m)
          ∧ demoDeckResp.cursor = some (encode_cursor p (a + 1)))
    ∧ (∃ respd db2d,
        get_deck demoFeed demoDetails demoDb "demo" 2 none = some (respd, db2d)
        ∧ respd.results.map (fun c => c.id) = [680, 13]
        ∧ respd.cursor = some (encode_cursor 1 3)
        ∧ respd.has_more = true)) :=
  deck_limit_reached_exact demoFeed demoDetails demoDb "demo" 2 demoDeckResp _
    (by decide) (by decide) rfl

/-! ### The cursor codec round-trip -/

theorem b64EncChar_props : ∀ i, i < 64 →
    b64DecChar (b64EncChar i) = some i ∧ b64EncChar i ≠ 61 ∧ b64EncChar i ≠ 45 ∧
      b64EncChar i ≠ 95 ∧ b64EncChar i < 128 := by
  decide

theorem a2b_data_step0 (c v : Nat) (rest : List Nat) (lc : Nat)
    (hne : c ≠ 61) (hv : b64DecChar c = some v) :
    a2bBase64 (c :: rest) 0 lc = a2bBase64 rest 1 v := by
  rw [a2bBase64, if_neg hne, hv]

theorem a2b_data_step1 (c v : Nat) (rest : List Nat) (lc : Nat)
    (hne : c ≠ 61) (hv : b64DecChar c = some v) :
    a2bBase64 (c :: rest) 1 lc
      = Option.map (fun o => (lc * 64 + v) / 16 :: o) (a2bBase64 rest 2 ((lc * 64 + v) % 16)) := by
  rw [a2bBase64, if_neg hne, hv]

theorem a2b_data_step2 (c v : Nat) (rest : List Nat) (lc : Nat)
    (hne : c ≠ 61) (hv : b64DecChar c = some v) :
    a2bBase64 (c :: rest) 2 lc
      = Option.map (fun o => (lc * 64 + v) / 4 :: o) (a2bBase64 rest 3 ((lc * 64 + v) % 4)) := by
  rw [a2bBase64, if_neg hne, hv]

theorem a2b_data_step3 (c v : Nat) (rest : List Nat) (lc : Nat)
    (hne : c ≠ 61) (hv : b64DecChar c = some v) :
    a2bBase64 (c :: rest) 3 lc
      = Option.map (fun o => (lc * 64 + v) :: o) (a2bBase64 rest 0 0) := by
  rw [a2bBase64, if_neg hne, hv]

theorem a2b_pad_hi (rest : List Nat) (qp lc : Nat) (h : 2 ≤ qp) :
    a2bBase64 (61 :: rest) qp lc = a2bBase64 rest 0 0 := by
  rw [a2bBase64, if_pos rfl, if_pos h]

theorem a2b_pad_lo (rest : List Nat) (qp lc : Nat) (h : qp < 2) :
    a2bBase64 (61 :: rest) qp lc = a2bBase64 rest qp lc := by
  rw [a2bBase64, if_pos rfl, if_neg (by omega)]

theorem a2b_encode : ∀ (bs : List Nat), (∀ b ∈ bs, b < 256) →
    a2bBase64 (b64EncodeStd bs) 0 0 = some bs
  | [], _ => rfl
  | [b1], h => by
    have hb1 : b1 < 256 := h b1 (by simp)
    obtain ⟨hd1, hn1, -, -, -⟩ := b64EncChar_props (b1 / 4) (by omega)
    obtain ⟨hd2, hn2, -, -, -⟩ := b64EncChar_props (b1 % 4 * 16) (by omega)
    rw [b64EncodeStd, a2b_data_step0 _ _ _ _ hn1 hd1, a2b_data_step1 _ _ _ _ hn2 hd2,
      a2b_pad_hi _ _ _ (by omega), a2b_pad_lo _ _ _ (by omega)]
    simp only [a2bBase64, Option.map_some', Option.some.injEq, List.cons.injEq, and_true]
    omega
  | [b1, b2], h => by
    have hb1 : b1 < 256 := h b1 (by simp)
    have hb2 : b2 < 256 := h b2 (by simp)
    obtain ⟨hd1, hn1, -, -, -⟩ := b64EncChar_props (b1 / 4) (by omega)
    obtain ⟨hd2, hn2, -, -, -⟩ := b64EncChar_props (b1 % 4 * 16 + b2 / 16) (by omega)
    obtain ⟨hd3, hn3, -, -, -⟩ := b64EncChar_props (b2 % 16 * 4) (by omega)
    rw [b64EncodeStd, a2b_data_step0 _ _ _ _ hn1 hd1, a2b_data_step1 _ _ _ _ hn2 hd2,
      a2b_data_step2 _ _ _ _ hn3 hd3, a2b_pad_hi _ _ _ (by omega)]
    simp only [a2bBase64, Option.map_some', Option.some.injEq, List.cons.injEq, and_true]
    exact ⟨by omega, by omega⟩
  | b1 :: b2 :: b3 :: rest, h => by
    have hb1 : b1 < 256 := h b1 (by simp)
    have hb2 : b2 < 256 := h b2 (by simp)
    have hb3 : b3 < 256 := h b3 (by simp)
    obtain ⟨hd1, hn1, -, -, -⟩ := b64EncChar_props (b1 / 4) (by omega)
    obtain ⟨hd2, hn2, -, -, -⟩ := b64EncChar_props (b1 % 4 * 16 + b2 / 16) (by omega)
    obtain ⟨hd3, hn3, -, -, -⟩ := b64EncChar_props (b2 % 16 * 4 + b3 / 64) (by omega)
    obtain ⟨hd4, hn4, -, -, -⟩ := b64EncChar_props (b3 % 64) (by omega)
    rw [b64EncodeStd, a2b_data_step0 _ _ _ _ hn1 hd1, a2b_data_step1 _ _ _ _ hn2 hd2,
      a2b_data_step2 _ _ _ _ hn3 hd3, a2b_data_step3 _ _ _ _ hn4 hd4,
      a2b_encode rest (fun b hb => h b (by simp [hb]))]
    simp only [Option.map_some', Option.some.injEq, List.cons.injEq, and_true]
    exact ⟨by omega, by omega, by omega⟩

theorem b64EncodeStd_mem : ∀ (bs : List Nat), (∀ b ∈ bs, b < 256) →
    ∀ c ∈ b64EncodeStd bs, c ≠ 45 ∧ c ≠ 95 ∧ c < 128
  | [], _, c, hc => by simp [b64EncodeStd] at hc
  | [b1], h, c, hc => by
    have hb1 : b1 < 256 := h b1 (by simp)
    obtain ⟨-, -, p1, q1, r1⟩ := b64EncChar_props (b1 / 4) (by omega)
    obtain ⟨-, -, p2, q2, r2⟩ := b64EncChar_props (b1 % 4 * 16) (by omega)
    rw [b64EncodeStd] at hc
    simp only [List.mem_cons, List.not_mem_nil, or_false] at hc
    rcases hc with hc | hc | hc | hc
    · exact hc ▸ ⟨p1, q1, r1⟩
    · exact hc ▸ ⟨p2, q2, r2⟩
    · exact hc ▸ ⟨by omega, by omega, by omega⟩
    · exact hc ▸ ⟨by omega, by omega, by omega⟩
  | [b1, b2], h, c, hc => by
    have hb1 : b1 < 256 := h b1 (by simp)
    have hb2 : b2 < 256 := h b2 (by simp)
    obtain ⟨-, -, p1, q1, r1⟩ := b64EncChar_props (b1 / 4) (by omega)
    obtain ⟨-, -, p2, q2, r2⟩ := b64EncChar_props (b1 % 4 * 16 + b2 / 16) (by omega)
    obtain ⟨-, -, p3, q3, r3⟩ := b64EncChar_props (b2 % 16 * 4) (by omega)
    rw [b64EncodeStd] at hc
    simp only [List.mem_cons, List.not_mem_nil, or_false] at hc
    rcases hc with hc | hc | hc | hc
    · exact hc ▸ ⟨p1, q1, r1⟩
    · exact hc ▸ ⟨p2, q2, r2⟩
    · exact hc ▸ ⟨p3, q3, r3⟩
    · exact hc ▸ ⟨by omega, by omega, by omega⟩
  | b1 :: b2 :: b3 :: rest, h, c, hc => by
    have hb1 : b1 < 256 := h b1 (by simp)
    have hb2 : b2 < 256 := h b2 (by simp)
    have hb3 : b3 < 256 := h b3 (by simp)
    obtain ⟨-, -, p1, q1, r1⟩ := b64EncChar_props (b1 / 4) (by omega)
    obtain ⟨-, -, p2, q2, r2⟩ := b64EncChar_props (b1 % 4 * 16 + b2 / 16) (by omega)
    obtain ⟨-, -, p3, q3, r3⟩ := b64EncChar_props (b2 % 16 * 4 + b3 / 64) (by omega)
    obtain ⟨-, -, p4, q4, r4⟩ := b64EncChar_props (b3 % 64) (by omega)
    rw [b64EncodeStd] at hc
    simp only [List.mem_cons] at hc
    rcases hc with hc | hc | hc | hc | hc
    · exact hc ▸ ⟨p1, q1, r1⟩
    · exact hc ▸ ⟨p2, q2, r2⟩
    · exact hc ▸ ⟨p3, q3, r3⟩
    · exact hc ▸ ⟨p4, q4, r4⟩
    · exact b64EncodeStd_mem rest (fun b hb => h b (by simp [hb])) c hc

theorem stdOfUrlsafe_urlsafeOfStd (c : Nat) (h45 : c ≠ 45) (h95 : c ≠ 95) :
    stdOfUrlsafe (urlsafeOfStd c) = c := by
  rw [urlsafeOfStd]
  by_cases h43 : c = 43
  · simp [stdOfUrlsafe, h43]
  · by_cases h47 : c = 47
    · simp [stdOfUrlsafe, h43, h47]
    · rw [if_neg h43, if_neg h47, stdOfUrlsafe, if_neg h45, if_neg h95]

theorem urlsafeOfStd_lt (c : Nat) (h : c < 128) : urlsafeOfStd c < 128 := by
  rw [urlsafeOfStd]
  split
  · omega
  · split <;> omega

theorem map_translate_encode (bs : List Nat) (h : ∀ b ∈ bs, b < 256) :
    ((b64EncodeStd bs).map urlsafeOfStd).map stdOfUrlsafe = b64EncodeStd bs := by
  rw [List.map_map]
  have : ∀ c ∈ b64EncodeStd bs, (stdOfUrlsafe ∘ urlsafeOfStd) c = c := by
    intro c hc
    obtain ⟨p, q, -⟩ := b64EncodeStd_mem bs h c hc
    exact stdOfUrlsafe_urlsafeOfStd c p q
  calc (b64EncodeStd bs).map (stdOfUrlsafe ∘ urlsafeOfStd)
      = (b64EncodeStd bs).map id := List.map_congr_left this
    _ = b64EncodeStd bs := List.map_id _

theorem pyUrlsafeB64decode_encode (bs : List Nat) (h : ∀ b ∈ bs, b < 256) :
    pyUrlsafeB64decode (pyUrlsafeB64encode bs) = some bs := by
  rw [pyUrlsafeB64encode, pyUrlsafeB64decode, if_pos, map_translate_encode bs h,
    a2b_encode bs h]
  rw [List.all_eq_true]
  intro c hc
  obtain ⟨c0, hc0, rfl⟩ := List.mem_map.1 hc
  obtain ⟨-, -, hlt⟩ := b64EncodeStd_mem bs h c0 hc0
  exact decide_eq_true (urlsafeOfStd_lt c0 hlt)

theorem utf8Encode_ascii (cps : List Nat) (h : ∀ c ∈ cps, c < 128) :
    utf8Encode cps = cps := by
  induction cps with
  | nil => rfl
  | cons c tl ih =>
    have hc : c < 128 := h c (by simp)
    rw [utf8Encode, List.map_cons, List.flatten_cons, utf8EncodeChar, if_pos hc]
    rw [utf8Encode] at ih
    rw [ih (fun x hx => h x (by simp [hx]))]
    rfl

theorem utf8DecodeGo_ascii : ∀ (fuel : Nat) (cps : List Nat), cps.length < fuel →
    (∀ c ∈ cps, c < 128) → utf8DecodeGo fuel cps = some cps
  | 0, cps, hf, _ => absurd hf (by omega)
  | _ + 1, [], _, _ => rfl
  | fuel + 1, c :: tl, hf, h => by
    have hc : c < 128 := h c (by simp)
    rw [utf8DecodeGo, utf8DecodeStep.eq_def]
    dsimp only
    rw [if_pos hc]
    dsimp only
    rw [utf8DecodeGo_ascii fuel tl (by simpa using hf) (fun x hx => h x (by simp [hx]))]
    rfl

theorem utf8Decode_ascii (cps : List Nat) (h : ∀ c ∈ cps, c < 128) :
    utf8Decode cps = some cps :=
  utf8DecodeGo_ascii (cps.length + 1) cps (by omega) h

theorem digitsVal_append (ds : List Nat) (d : Nat) :
    digitsVal (ds ++ [d]) = digitsVal ds * 10 + (d - 48) := by
  simp [digitsVal, List.foldl_append]

theorem natDigitsGo_digits : ∀ (f n : Nat), n < f →
    ∀ d ∈ natDigitsGo f n, 48 ≤ d ∧ d ≤ 57
  | 0, n, h => absurd h (by omega)
  | f + 1, n, h => by
    rw [natDigitsGo]
    by_cases h10 : n < 10
    · rw [if_pos h10]
      intro d hd
      simp only [List.mem_singleton] at hd
      omega
    · rw [if_neg h10]
      intro d hd
      rcases List.mem_append.1 hd with hd | hd
      · exact natDigitsGo_digits f (n / 10) (by omega) d hd
      · simp only [List.mem_singleton] at hd
        have := Nat.mod_lt n (show 0 < 10 by omega)
        omega

theorem natDigitsGo_val : ∀ (f n : Nat), n < f → digitsVal (natDigitsGo f n) = n
  | 0, n, h => absurd h (by omega)
  | f + 1, n, h => by
    rw [natDigitsGo]
    by_cases h10 : n < 10
    · rw [if_pos h10]
      simp [digitsVal]
    · rw [if_neg h10, digitsVal_append, natDigitsGo_val f (n / 10) (by omega)]
      omega

theorem natDigitsGo_ne_nil (f n : Nat) : natDigitsGo (f + 1) n ≠ [] := by
  rw [natDigitsGo]
  by_cases h10 : n < 10
  · rw [if_pos h10]; simp
  · rw [if_neg h10]; simp

theorem natDigitsGo_head : ∀ (f n : Nat), n < f → 1 ≤ n →
    ∀ d ds, natDigitsGo f n = d :: ds → 49 ≤ d
  | 0, n, h, _ => absurd h (by omega)
  | f + 1, n, h, h1 => by
    intro d ds hds
    rw [natDigitsGo] at hds
    by_cases h10 : n < 10
    · rw [if_pos h10] at hds
      simp only [List.cons.injEq] at hds
      omega
    · rw [if_neg h10] at hds
      rcases hgo : natDigitsGo f (n / 10) with _ | ⟨d0, ds0⟩
      · have hv := natDigitsGo_val f (n / 10) (by omega)
        rw [hgo] at hv
        simp [digitsVal] at hv
        omega
      · rw [hgo] at hds
        simp only [List.cons_append, List.cons.injEq] at hds
        obtain ⟨h1, -⟩ := hds
        rw [← h1]
        exact natDigitsGo_head f (n / 10) (by omega) (by omega) d0 ds0 hgo

theorem takeDigitRun_append : ∀ (ds rest : List Nat), (∀ d ∈ ds, isDigitCp d = true) →
    (∀ c r, rest = c :: r → isDigitCp c = false) →
    takeDigitRun (ds ++ rest) = (ds, rest)
  | [], rest, _, hr => by
    rcases rest with _ | ⟨c, r⟩
    · rfl
    · have hc := hr c r rfl
      simp [takeDigitRun, List.takeWhile_cons, List.dropWhile_cons, hc]
  | d :: ds, rest, hd, hr => by
    have h1 : isDigitCp d = true := hd d (by simp)
    have ih := takeDigitRun_append ds rest (fun x hx => hd x (by simp [hx])) hr
    simp only [takeDigitRun, Prod.mk.injEq] at ih
    simp [takeDigitRun, List.takeWhile_cons, List.dropWhile_cons, h1, ih.1, ih.2]

theorem parseNumTail_delim (neg : Bool) (ipart : List Nat) (d : Nat) (r : List Nat)
    (h46 : d ≠ 46) (h101 : d ≠ 101) (h69 : d ≠ 69) :
    parseNumTail neg ipart (d :: r) =
      (PyJson.int ((if neg then -1 else 1) * (digitsVal ipart : Int)), d :: r) := by
  simp [parseNumTail, h46, h101, h69]

theorem natDigitCps_pos (m : Nat) : natDigitCps m ≠ [] := natDigitsGo_ne_nil m m

theorem parseJsonNumber_pos (m : Nat) (d : Nat) (r : List Nat)
    (hd : isDigitCp d = false) (h46 : d ≠ 46) (h101 : d ≠ 101) (h69 : d ≠ 69) :
    parseJsonNumber (natDigitCps m ++ d :: r) = some (.int (m : Int), d :: r) := by
  rcases hgo : natDigitCps m with _ | ⟨c, ds⟩
  · exact absurd hgo (natDigitCps_pos m)
  have hcd : 48 ≤ c ∧ c ≤ 57 :=
    natDigitsGo_digits (m + 1) m (by omega) c (by rw [show natDigitsGo (m+1) m = c :: ds from hgo]; simp)
  have hdig : ∀ x ∈ ds, isDigitCp x = true := by
    intro x hx
    have := natDigitsGo_digits (m + 1) m (by omega) x
      (by rw [show natDigitsGo (m+1) m = c :: ds from hgo]; simp [hx])
    simp [isDigitCp]
    omega
  have hval : digitsVal (c :: ds) = m := by
    rw [← hgo]
    exact natDigitsGo_val (m + 1) m (by omega)
  have hrun : takeDigitRun (ds ++ d :: r) = (ds, d :: r) :=
    takeDigitRun_append ds (d :: r) hdig
      (fun c2 r2 h => by obtain ⟨rfl, -⟩ := List.cons.injEq .. ▸ h; exact hd)
  by_cases hm : m = 0
  · have hc48 : c = 48 ∧ ds = [] := by
      have : natDigitCps 0 = [48] := rfl
      rw [hm] at hgo
      rw [this] at hgo
      simp only [List.cons.injEq] at hgo
      exact ⟨hgo.1.symm, hgo.2.symm⟩
    obtain ⟨rfl, rfl⟩ := hc48
    simp [parseJsonNumber, parseNumTail_delim false [48] d r h46 h101 h69, digitsVal, hm]
  · have hc49 : 49 ≤ c :=
      natDigitsGo_head (m + 1) m (by omega) (by omega) c ds hgo
    have hc45 : ¬(c = 45) := by omega
    have hc48 : ¬(c = 48) := by omega
    have hcdig : isDigitCp c = true := by simp [isDigitCp]; omega
    simp only [parseJsonNumber, List.cons_append, hc45, if_false, hc48, hcdig, if_true]
    rw [hrun]
    simp [parseNumTail_delim false (c :: ds) d r h46 h101 h69, hval]

theorem parseJsonNumber_negRepr (m : Nat) (hm : 1 ≤ m) (d : Nat) (r : List Nat)
    (hd : isDigitCp d = false) (h46 : d ≠ 46) (h101 : d ≠ 101) (h69 : d ≠ 69) :
    parseJsonNumber (45 :: (natDigitCps m ++ d :: r)) = some (.int (-(m : Int)), d :: r) := by
  rcases hgo : natDigitCps m with _ | ⟨c, ds⟩
  · exact absurd hgo (natDigitCps_pos m)
  have hdig : ∀ x ∈ ds, isDigitCp x = true := by
    intro x hx
    have := natDigitsGo_digits (m + 1) m (by omega) x
      (by rw [show natDigitsGo (m+1) m = c :: ds from hgo]; simp [hx])
    simp [isDigitCp]
    omega
  have hval : digitsVal (c :: ds) = m := by
    rw [← hgo]
    exact natDigitsGo_val (m + 1) m (by omega)
  have hrun : takeDigitRun (ds ++ d :: r) = (ds, d :: r) :=
    takeDigitRun_append ds (d :: r) hdig
      (fun c2 r2 h => by obtain ⟨rfl, -⟩ := List.cons.injEq .. ▸ h; exact hd)
  have hc49 : 49 ≤ c :=
    natDigitsGo_head (m + 1) m (by omega) (by omega) c ds hgo
  have hc57 : c ≤ 57 :=
    (natDigitsGo_digits (m + 1) m (by omega) c
      (by rw [show natDigitsGo (m+1) m = c :: ds from hgo]; simp)).2
  have hc48 : ¬(c = 48) := by omega
  have hcdig : isDigitCp c = true := by simp [isDigitCp]; omega
  simp only [parseJsonNumber, List.cons_append, if_pos rfl, hc48, if_false, hcdig, if_true]
  rw [hrun]
  simp [parseNumTail_delim true (c :: ds) d r h46 h101 h69, hval]

theorem parseJsonNumber_intRepr (p : Int) (d : Nat) (r : List Nat)
    (hd : isDigitCp d = false) (h46 : d ≠ 46) (h101 : d ≠ 101) (h69 : d ≠ 69) :
    parseJsonNumber (intReprCps p ++ d :: r) = some (.int p, d :: r) := by
  rw [intReprCps]
  by_cases hp : p < 0
  · rw [if_pos hp]
    have h := parseJsonNumber_negRepr p.natAbs (by omega) d r hd h46 h101 h69
    have h2 : (-(p.natAbs : Int)) = p := by omega
    rw [List.cons_append, h, h2]
  · rw [if_neg hp]
    have h := parseJsonNumber_pos p.toNat d r hd h46 h101 h69
    have h2 : ((p.toNat : Int)) = p := by omega
    rw [h, h2]

theorem intReprCps_head (p : Int) :
    ∃ c tl, intReprCps p = c :: tl ∧ (c = 45 ∨ (48 ≤ c ∧ c ≤ 57)) := by
  rw [intReprCps]
  by_cases hp : p < 0
  · exact ⟨45, _, by rw [if_pos hp], Or.inl rfl⟩
  · rw [if_neg hp]
    rcases hgo : natDigitCps p.toNat with _ | ⟨c, tl⟩
    · exact absurd hgo (natDigitCps_pos _)
    · exact ⟨c, tl, rfl,
        Or.inr (natDigitsGo_digits (p.toNat + 1) p.toNat (by omega) c (by rw [show natDigitsGo (p.toNat + 1) p.toNat = c :: tl from hgo]; simp))⟩

set_option maxHeartbeats 2000000 in
theorem parseJsonValue_num (fuel : Nat) (c : Nat) (tl : List Nat) (res : PyJson × List Nat)
    (hc : c = 45 ∨ (48 ≤ c ∧ c ≤ 57))
    (hnum : parseJsonNumber (c :: tl) = some res) :
    parseJsonValue (fuel + 1) (c :: tl) = some res := by
  rcases hc with rfl | hc
  · rw [parseJsonValue, hnum]
    all_goals intro r2 hcontra
    all_goals rw [hcontra] at hnum
    all_goals simp [parseJsonNumber, isDigitCp] at hnum
  · obtain ⟨hcl, hcr⟩ := hc
    interval_cases c <;>
      (rw [parseJsonValue, hnum]
       all_goals intro r2 hcontra
       all_goals rw [hcontra] at hnum
       all_goals simp [parseJsonNumber, isDigitCp] at hnum)

theorem parseJsonValue_intRepr (fuel : Nat) (p : Int) (d : Nat) (r : List Nat)
    (hd : isDigitCp d = false) (h46 : d ≠ 46) (h101 : d ≠ 101) (h69 : d ≠ 69) :
    parseJsonValue (fuel + 1) (intReprCps p ++ d :: r) = some (.int p, d :: r) := by
  obtain ⟨c, tl, heq, hc⟩ := intReprCps_head p
  have hnum := parseJsonNumber_intRepr p d r hd h46 h101 h69
  rw [heq] at hnum ⊢
  rw [List.cons_append] at hnum ⊢
  exact parseJsonValue_num fuel c (tl ++ d :: r) _ hc hnum

theorem skipWs_not_ws (c : Nat) (cs : List Nat) (h : jsonWs c = false) :
    skipWs (c :: cs) = c :: cs := by
  rw [skipWs, if_neg]
  simp [h]

theorem skipWs_ws (c : Nat) (cs : List Nat) (h : jsonWs c = true) :
    skipWs (c :: cs) = skipWs cs := by
  rw [skipWs, if_pos]
  simp [h]

theorem skipWs_intRepr (p : Int) (rest : List Nat) :
    skipWs (intReprCps p ++ rest) = intReprCps p ++ rest := by
  obtain ⟨c, tl, heq, hc⟩ := intReprCps_head p
  rw [heq, List.cons_append]
  apply skipWs_not_ws
  rcases hc with rfl | hc
  · rfl
  · simp only [jsonWs, Bool.or_eq_false_iff, beq_eq_false_iff_ne, ne_eq]
    omega

theorem parseStr_page (f : Nat) (rest : List Nat) :
    parseJsonStringAux (f + 5) (112 :: 97 :: 103 :: 101 :: 34 :: rest) [] =
      some ([112, 97, 103, 101], rest) := rfl

theorem parseStr_index (f : Nat) (rest : List Nat) :
    parseJsonStringAux (f + 6) (105 :: 110 :: 100 :: 101 :: 120 :: 34 :: rest) [] =
      some ([105, 110, 100, 101, 120], rest) := rfl

theorem parseStrPageF (fu : Nat) (rest : List Nat) (h : 5 ≤ fu) :
    parseJsonStringAux fu (112 :: 97 :: 103 :: 101 :: 34 :: rest) [] =
      some ([112, 97, 103, 101], rest) := by
  obtain ⟨f, rfl⟩ : ∃ f, fu = f + 5 := ⟨fu - 5, by omega⟩
  exact parseStr_page f rest

theorem parseStrIndexF (fu : Nat) (rest : List Nat) (h : 6 ≤ fu) :
    parseJsonStringAux fu (105 :: 110 :: 100 :: 101 :: 120 :: 34 :: rest) [] =
      some ([105, 110, 100, 101, 120], rest) := by
  obtain ⟨f, rfl⟩ : ∃ f, fu = f + 6 := ⟨fu - 6, by omega⟩
  exact parseStr_index f rest

set_option maxHeartbeats 2000000 in
theorem parseMembers_cursor (f : Nat) (p i : Int) :
    parseJsonMembers (f + 3)
      (34 :: 112 :: 97 :: 103 :: 101 :: 34 :: 58 :: 32 ::
        (intReprCps p ++ (44 :: 32 :: 34 :: 105 :: 110 :: 100 :: 101 :: 120 :: 34 :: 58 :: 32 ::
          (intReprCps i ++ [125])))) =
      some ([(pageKeyCps, PyJson.int p), (indexKeyCps, PyJson.int i)], []) := by
  rw [parseJsonMembers]
  rw [parseStrPageF _ _ (by simp only [List.length_cons]; omega)]
  dsimp only
  rw [skipWs_not_ws 58 _ rfl]
  dsimp only
  rw [skipWs_ws 32 _ rfl, skipWs_intRepr]
  rw [parseJsonValue_intRepr (f + 1) p 44 _ rfl (by omega) (by omega) (by omega)]
  dsimp only
  rw [skipWs_not_ws 44 _ rfl]
  dsimp only
  rw [skipWs_ws 32 _ rfl, skipWs_not_ws 34 _ rfl]
  rw [parseJsonMembers]
  rw [parseStrIndexF _ _ (by simp only [List.length_cons]; omega)]
  dsimp only
  rw [skipWs_not_ws 58 _ rfl]
  dsimp only
  rw [skipWs_ws 32 _ rfl, skipWs_intRepr]
  rw [parseJsonValue_intRepr f i 125 [] rfl (by omega) (by omega) (by omega)]
  dsimp only
  rw [skipWs_not_ws 125 _ rfl]
  rfl

set_option maxHeartbeats 2000000 in
theorem parseJsonValue_cursor (f : Nat) (p i : Int) :
    parseJsonValue (f + 4) (dumpsCursorCps p i) =
      some (.obj [(pageKeyCps, PyJson.int p), (indexKeyCps, PyJson.int i)], []) := by
  have hnorm : dumpsCursorCps p i =
      123 :: (34 :: 112 :: 97 :: 103 :: 101 :: 34 :: 58 :: 32 ::
        (intReprCps p ++ (44 :: 32 :: 34 :: 105 :: 110 :: 100 :: 101 :: 120 :: 34 :: 58 :: 32 ::
          (intReprCps i ++ [125])))) := by
    simp [dumpsCursorCps]
  rw [hnorm]
  rw [parseJsonValue]
  rw [skipWs_not_ws 34 _ rfl]
  dsimp only
  rw [parseMembers_cursor]

theorem pyJsonLoads_cursor (p i : Int) :
    pyJsonLoads (dumpsCursorCps p i) =
      some (.obj [(pageKeyCps, PyJson.int p), (indexKeyCps, PyJson.int i)]) := by
  rw [pyJsonLoads]
  have h3 : 3 ≤ (dumpsCursorCps p i).length := by
    simp [dumpsCursorCps]
  have hf : (dumpsCursorCps p i).length + 1 = ((dumpsCursorCps p i).length - 3) + 4 := by
    omega
  rw [hf]
  have hsk : skipWs (dumpsCursorCps p i) = dumpsCursorCps p i := by
    rw [show dumpsCursorCps p i =
        123 :: (34 :: 112 :: 97 :: 103 :: 101 :: 34 :: 58 :: 32 ::
          (intReprCps p ++ (44 :: 32 :: 34 :: 105 :: 110 :: 100 :: 101 :: 120 :: 34 :: 58 :: 32 ::
            (intReprCps i ++ [125])))) from by simp [dumpsCursorCps]]
    exact skipWs_not_ws 123 _ rfl
  rw [hsk, parseJsonValue_cursor]
  rfl

theorem pyDictGet_page (p i : Int) :
    pyDictGet [(pageKeyCps, PyJson.int p), (indexKeyCps, PyJson.int i)] pageKeyCps
      (PyJson.int 1) = PyJson.int p := rfl

theorem pyDictGet_index (p i : Int) :
    pyDictGet [(pageKeyCps, PyJson.int p), (indexKeyCps, PyJson.int i)] indexKeyCps
      (PyJson.int 0) = PyJson.int i := rfl

theorem intReprCps_lt (p : Int) : ∀ c ∈ intReprCps p, c < 128 := by
  intro c hc
  rw [intReprCps] at hc
  split at hc
  · simp only [List.mem_cons] at hc
    rcases hc with rfl | hc
    · omega
    · rw [natDigitCps] at hc
      have := natDigitsGo_digits (p.natAbs + 1) p.natAbs (by omega) c hc
      omega
  · rw [natDigitCps] at hc
    have := natDigitsGo_digits (p.toNat + 1) p.toNat (by omega) c hc
    omega

theorem dumpsCursorCps_lt (p i : Int) : ∀ c ∈ dumpsCursorCps p i, c < 128 := by
  intro c hc
  rw [dumpsCursorCps] at hc
  rcases List.mem_append.1 hc with h | h
  · rcases List.mem_append.1 h with h | h
    · rcases List.mem_append.1 h with h | h
      · rcases List.mem_append.1 h with h | h
        · simp only [List.mem_cons, List.not_mem_nil, or_false] at h
          omega
        · exact intReprCps_lt p c h
      · simp only [List.mem_cons, List.not_mem_nil, or_false] at h
        omega
    · exact intReprCps_lt i c h
  · simp only [List.mem_cons, List.not_mem_nil, or_false] at h
    omega

theorem char_toNat_ofNat_small (c : Nat) (h : c < 128) : (Char.ofNat c).toNat = c := by
  have hv : Nat.isValidChar c := Or.inl (by omega)
  rw [Char.ofNat, dif_pos hv]
  rfl

theorem cpsOfString_stringOfCps (l : List Nat) (h : ∀ c ∈ l, c < 128) :
    cpsOfString (stringOfCps l) = l := by
  rw [cpsOfString, stringOfCps]
  show (l.map Char.ofNat).map Char.toNat = l
  rw [List.map_map]
  have he : ∀ c ∈ l, (Char.toNat ∘ Char.ofNat) c = id c := fun c hc =>
    char_toNat_ofNat_small c (h c hc)
  rw [List.map_congr_left he, List.map_id]

theorem pyUrlsafeB64encode_lt (bs : List Nat) (h : ∀ b ∈ bs, b < 256) :
    ∀ c ∈ pyUrlsafeB64encode bs, c < 128 := by
  intro c hc
  rw [pyUrlsafeB64encode] at hc
  obtain ⟨c0, hc0, rfl⟩ := List.mem_map.1 hc
  obtain ⟨-, -, hlt⟩ := b64EncodeStd_mem bs h c0 hc0
  exact urlsafeOfStd_lt c0 hlt

theorem decode_encode_cursor (p i : Int) :
    decode_cursor (encode_cursor p i) = (PyJson.int p, PyJson.int i) := by
  have hascii := dumpsCursorCps_lt p i
  have h256 : ∀ c ∈ dumpsCursorCps p i, c < 256 := fun c hc => by
    have := hascii c hc
    omega
  rw [decode_cursor, encode_cursor, utf8Encode_ascii _ hascii]
  rw [cpsOfString_stringOfCps _ (pyUrlsafeB64encode_lt _ h256)]
  rw [pyUrlsafeB64decode_encode _ h256]
  dsimp only
  rw [utf8Decode_ascii _ hascii]
  dsimp only
  rw [pyJsonLoads_cursor]
  exact Prod.ext (pyDictGet_page p i) (pyDictGet_index p i)

theorem b64EncodeStd_length : ∀ (bs : List Nat),
    (b64EncodeStd bs).length = 4 * ((bs.length + 2) / 3)
  | [] => rfl
  | [_] => by rw [b64EncodeStd]; simp
  | [_, _] => by rw [b64EncodeStd]; simp
  | b1 :: b2 :: b3 :: rest => by
    rw [b64EncodeStd]
    simp only [List.length_cons]
    rw [b64EncodeStd_length rest]
    omega

theorem stringOfCps_length (l : List Nat) : (stringOfCps l).length = l.length := by
  simp [stringOfCps, String.length]

theorem intReprCps_pos (p : Int) : 1 ≤ (intReprCps p).length := by
  obtain ⟨c, tl, heq, -⟩ := intReprCps_head p
  rw [heq]
  simp

theorem encode_cursor_length (p i : Int) : 32 ≤ (encode_cursor p i).length := by
  have h23 : 23 ≤ (dumpsCursorCps p i).length := by
    have h1 := intReprCps_pos p
    have h2 := intReprCps_pos i
    simp [dumpsCursorCps]
    omega
  rw [encode_cursor, utf8Encode_ascii _ (dumpsCursorCps_lt p i), stringOfCps_length,
    pyUrlsafeB64encode, List.length_map, b64EncodeStd_length]
  omega

theorem encode_cursor_ne_empty (p i : Int) : encode_cursor p i ≠ "" := by
  intro h
  have h36 := encode_cursor_length p i
  rw [h] at h36
  have h0 : ("" : String).length = 0 := rfl
  omega

/-- C4 counterexample: the foreign string `eyJwYWdlIjo3fQ==` (the
urlsafe base64 of the JSON document with page 7, which `encode_cursor`
never produces — every `encode_cursor` output is at least 32 characters
long) decodes to `(7, 0)`, not to the start position `(1, 0)`. -/
theorem decode_cursor_foreign_counterexample :
    decode_cursor "eyJwYWdlIjo3fQ==" = (PyJson.int 7, PyJson.int 0) ∧
    (¬ ∃ p i : Int, encode_cursor p i = "eyJwYWdlIjo3fQ==") ∧
    (PyJson.int 7, PyJson.int 0) ≠ (PyJson.int 1, PyJson.int 0) := by
  refine ⟨rfl, ?_, by simp⟩
  rintro ⟨p, i, h⟩
  have h32 := encode_cursor_length p i
  rw [h] at h32
  have h16 : ("eyJwYWdlIjo3fQ==" : String).length = 16 := rfl
  omega

/-- C4 (amended): `decode_cursor` is total — on every input it either
reaches a decoded JSON object, in which case it returns that object's
`page` and `index` entries with defaults 1 and 0 (which need not be the
start position on foreign input), or some stage of the pipeline fails
and it returns the start position `(1, 0)`. -/
theorem decode_cursor_total_or_object_get (s : String) :
    (∃ bytes cps ms, pyUrlsafeB64decode (cpsOfString s) = some bytes ∧
        utf8Decode bytes = some cps ∧ pyJsonLoads cps = some (.obj ms) ∧
        decode_cursor s = (pyDictGet ms pageKeyCps (PyJson.int 1),
                           pyDictGet ms indexKeyCps (PyJson.int 0))) ∨
    decode_cursor s = (PyJson.int 1, PyJson.int 0) := by
  rw [decode_cursor]
  cases hb : pyUrlsafeB64decode (cpsOfString s) with
  | none => exact Or.inr rfl
  | some bytes =>
    dsimp only
    cases hu : utf8Decode bytes with
    | none => exact Or.inr rfl
    | some cps =>
      dsimp only
      cases hj : pyJsonLoads cps with
      | none => exact Or.inr rfl
      | some v =>
        cases v with
        | obj ms =>
          exact Or.inl ⟨bytes, cps, ms, rfl, hu, hj, rfl⟩
        | null => exact Or.inr rfl
        | bool b => exact Or.inr rfl
        | int n => exact Or.inr rfl
        | float r => exact Or.inr rfl
        | str c => exact Or.inr rfl
        | arr a => exact Or.inr rfl

theorem withIdx_split (p : Int) : ∀ (pre : List (Int × Int × TmdbMovie)) (l : List TmdbMovie)
    (i q j : Int) (m : TmdbMovie) (post : List (Int × Int × TmdbMovie)),
    withIdx p i l = pre ++ (q, j, m) :: post →
    q = p ∧ j = i + pre.length ∧ post = withIdx p (j + 1) (l.drop (pre.length + 1))
  | [], l, i, q, j, m, post => by
    intro h
    cases l with
    | nil => simp [withIdx] at h
    | cons m0 rest =>
      rw [withIdx] at h
      simp only [List.nil_append, List.cons.injEq, Prod.mk.injEq] at h
      obtain ⟨⟨hq, hj, hm⟩, hpost⟩ := h
      refine ⟨hq.symm, by simp [hj], ?_⟩
      rw [← hpost, ← hj]
      simp
  | x :: pre, l, i, q, j, m, post => by
    intro h
    cases l with
    | nil => simp [withIdx] at h
    | cons m0 rest =>
      rw [withIdx] at h
      simp only [List.cons_append, List.cons.injEq] at h
      obtain ⟨-, h2⟩ := h
      obtain ⟨hq, hj, hpost⟩ := withIdx_split p pre rest (i + 1) q j m post h2
      refine ⟨hq, ?_, ?_⟩
      · rw [hj]
        simp
        omega
      · rw [hpost]
        simp

theorem flattenF_split (feed : Int → List TmdbMovie) :
    ∀ (fuel : Nat) (p i : Int) (pre : List (Int × Int × TmdbMovie)) (q j : Int)
      (m : TmdbMovie) (post : List (Int × Int × TmdbMovie)),
      0 ≤ i →
      (fuel : Int) = 501 - p →
      flattenF feed fuel p i = pre ++ (q, j, m) :: post →
      feedStream feed q (j + 1) = post
  | 0, p, i, pre, q, j, m, post => by
    intro hi hf h
    rw [flattenF] at h
    exact absurd h (by simp)
  | fuel + 1, p, i, pre, q, j, m, post => by
    intro hi hf h
    have hf' : (fuel : Int) = 501 - (p + 1) := by push_cast at hf ⊢; omega
    rw [flattenF] at h
    by_cases hp : p ≤ 500
    · rw [if_pos hp] at h
      by_cases hfe : feed p = []
      · rw [if_pos hfe] at h
        exact absurd h (by simp)
      · rw [if_neg hfe] at h
        rcases List.append_eq_append_iff.1 h with ⟨a, ha1, ha2⟩ | ⟨c, hc1, hc2⟩
        · exact flattenF_split feed fuel (p + 1) 0 a q j m post le_rfl hf' ha2
        · cases c with
          | nil =>
            rw [List.nil_append] at hc2
            exact flattenF_split feed fuel (p + 1) 0 [] q j m post le_rfl hf'
              (by rw [← hc2]; rfl)
          | cons x c2 =>
            rw [List.cons_append, List.cons.injEq] at hc2
            obtain ⟨hx, hpost⟩ := hc2
            rw [← hx] at hc1
            obtain ⟨hq, hj, hc2eq⟩ := withIdx_split p pre (pySliceFrom (feed p) i) i q j m c2 hc1
            have hq500 : (501 - q).toNat = fuel + 1 := by
              rw [hq]
              omega
            rw [feedStream, hq500, flattenF, if_pos (by omega), if_neg (by rw [hq]; exact hfe),
              hpost, hc2eq, hq]
            have harg : (j + 1).toNat = i.toNat + (pre.length + 1) := by omega
            rw [pySliceFrom_nonneg _ i hi, pySliceFrom_nonneg _ (j + 1) (by omega),
              List.drop_drop, harg]
    · rw [if_neg hp] at h
      exact absurd h (by simp)

theorem refGo_resume (seen : List Int) (l1 : Int) :
    ∀ (s : List (Int × Int × TmdbMovie)) (cards0 cards' : List DeckCard) (cp ci : Int)
      (hm : Bool),
      (cards0.length : Int) < l1 →
      refGo seen l1 s cards0 = (cards', some (cp, ci), hm) →
      ∃ pre m post, s = pre ++ (cp, ci - 1, m) :: post ∧ (cards'.length : Int) = l1 ∧
        ∀ L : Int, l1 < L → refGo seen L s cards0 = refGo seen L post cards'
  | [], cards0, cards', cp, ci, hm => by
    intro hlen h
    simp [refGo] at h
  | e :: rest, cards0, cards', cp, ci, hm => by
    intro hlen h
    rw [refGo] at h
    by_cases hs : e.2.2.id ∈ seen
    · rw [if_pos hs] at h
      obtain ⟨pre, m, post, hsplit, hl, hall⟩ :=
        refGo_resume seen l1 rest cards0 cards' cp ci hm hlen h
      refine ⟨e :: pre, m, post, by rw [hsplit]; rfl, hl, ?_⟩
      intro L hL
      rw [refGo, if_pos hs]
      exact hall L hL
    · rw [if_neg hs] at h
      by_cases hlim : l1 ≤ ((cards0 ++ [mkDeckCard e.2.2]).length : Int)
      · rw [if_pos hlim] at h
        simp only [Prod.mk.injEq, Option.some.injEq] at h
        obtain ⟨hcards, ⟨hcp, hci⟩, -⟩ := h
        refine ⟨[], e.2.2, rest, ?_, ?_, ?_⟩
        · rw [List.nil_append]
          congr 1
          rw [← hcp, ← hci]
          ext <;> simp <;> omega
        · rw [← hcards]
          simp at hlim ⊢
          omega
        · intro L hL
          rw [refGo, if_neg hs, if_neg (by simp at hlim ⊢; omega), hcards]
      · rw [if_neg hlim] at h
        obtain ⟨pre, m, post, hsplit, hl, hall⟩ :=
          refGo_resume seen l1 rest (cards0 ++ [mkDeckCard e.2.2]) cards' cp ci hm
            (by omega) h
        refine ⟨e :: pre, m, post, by rw [hsplit]; rfl, hl, ?_⟩
        intro L hL
        rw [refGo, if_neg hs, if_neg (by omega)]
        exact hall L hL

theorem refGo_shift (seen : List Int) :
    ∀ (s : List (Int × Int × TmdbMovie)) (c0 c : List DeckCard) (L : Int),
      refGo seen L s (c0 ++ c) =
        ((c0 ++ (refGo seen (L - (c0.length : Int)) s c).1),
          (refGo seen (L - (c0.length : Int)) s c).2)
  | [], c0, c, L => by simp [refGo]
  | e :: rest, c0, c, L => by
    by_cases hs : e.2.2.id ∈ seen
    · rw [refGo, if_pos hs, refGo, if_pos hs]
      exact refGo_shift seen rest c0 c L
    · rw [refGo, if_neg hs, refGo, if_neg hs]
      by_cases hlim : L ≤ (((c0 ++ c) ++ [mkDeckCard e.2.2]).length : Int)
      · rw [if_pos hlim, if_pos (by simp at hlim ⊢; omega)]
        simp
      · rw [if_neg hlim, if_neg (by simp at hlim ⊢; omega)]
        rw [List.append_assoc]
        exact refGo_shift seen rest c0 (c ++ [mkDeckCard e.2.2]) L

theorem refGo_sublist (seen : List Int) (limit : Int) :
    ∀ (s : List (Int × Int × TmdbMovie)) (cards : List DeckCard),
      ∃ t : List (Int × Int × TmdbMovie), t.Sublist (s.filter (unseenB seen)) ∧
        (refGo seen limit s cards).1 = cards ++ t.map (fun e => mkDeckCard e.2.2)
  | [], cards => ⟨[], by simp, by simp [refGo]⟩
  | e :: rest, cards => by
    by_cases hs : e.2.2.id ∈ seen
    · have hub : unseenB seen e = false := by simp [unseenB, hs]
      obtain ⟨t, ht, heq⟩ := refGo_sublist seen limit rest cards
      refine ⟨t, ?_, ?_⟩
      · rw [List.filter_cons_of_neg (by simp [hub])]
        exact ht
      · rw [refGo, if_pos hs]
        exact heq
    · have hub : unseenB seen e = true := by simp [unseenB, hs]
      by_cases hlim : limit ≤ ((cards ++ [mkDeckCard e.2.2]).length : Int)
      · refine ⟨[e], ?_, ?_⟩
        · rw [List.filter_cons_of_pos (by simp [hub])]
          exact List.cons_sublist_cons.2 (List.nil_sublist _)
        · rw [refGo, if_neg hs, if_pos hlim]
          simp
      · obtain ⟨t, ht, heq⟩ := refGo_sublist seen limit rest (cards ++ [mkDeckCard e.2.2])
        refine ⟨e :: t, ?_, ?_⟩
        · rw [List.filter_cons_of_pos (by simp [hub])]
          exact List.cons_sublist_cons.2 ht
        · rw [refGo, if_neg hs, if_neg hlim, heq]
          simp

theorem refGo_nodup_cards (seen : List Int) (limit : Int)
    (s : List (Int × Int × TmdbMovie))
    (hdup : (s.map (fun e => e.2.2.id)).Nodup) :
    (refGo seen limit s []).1.Nodup := by
  obtain ⟨t, ht, heq⟩ := refGo_sublist seen limit s []
  rw [heq, List.nil_append]
  have hts : t.Sublist s := ht.trans (List.filter_sublist s)
  have hids : (t.map (fun e => e.2.2.id)).Nodup := (hts.map _).nodup hdup
  have hmm : t.map (fun e => e.2.2.id) =
      (t.map (fun e => mkDeckCard e.2.2)).map DeckCard.id := by
    rw [List.map_map]
    rfl
  rw [hmm] at hids
  exact hids.of_map DeckCard.id

theorem refGo_none_mono (seen : List Int) (L1 L2 : Int) (hL : L1 ≤ L2) :
    ∀ (s : List (Int × Int × TmdbMovie)) (cards : List DeckCard),
      (refGo seen L1 s cards).2.1 = none →
      refGo seen L2 s cards = refGo seen L1 s cards
  | [], cards, _ => rfl
  | e :: rest, cards, h => by
    by_cases hs : e.2.2.id ∈ seen
    · have e1 : refGo seen L1 (e :: rest) cards = refGo seen L1 rest cards := by
        rw [refGo, if_pos hs]
      have e2 : refGo seen L2 (e :: rest) cards = refGo seen L2 rest cards := by
        rw [refGo, if_pos hs]
      rw [e1] at h
      rw [e1, e2]
      exact refGo_none_mono seen L1 L2 hL rest cards h
    · by_cases hlim : L1 ≤ ((cards ++ [mkDeckCard e.2.2]).length : Int)
      · rw [refGo, if_neg hs, if_pos hlim] at h
        simp at h
      · have e1 : refGo seen L1 (e :: rest) cards =
            refGo seen L1 rest (cards ++ [mkDeckCard e.2.2]) := by
          rw [refGo, if_neg hs, if_neg hlim]
        have e2 : refGo seen L2 (e :: rest) cards =
            refGo seen L2 rest (cards ++ [mkDeckCard e.2.2]) := by
          rw [refGo, if_neg hs, if_neg (by omega)]
        rw [e1] at h
        rw [e1, e2]
        exact refGo_none_mono seen L1 L2 hL rest _ h

theorem create_or_update_movie_frame (db : Db) (mid : Int) (title : String)
    (release_date poster_path backdrop_path overview : Option String) :
    (create_or_update_movie db mid title release_date poster_path backdrop_path
        overview).users = db.users ∧
    (create_or_update_movie db mid title release_date poster_path backdrop_path
        overview).swipes = db.swipes ∧
    (create_or_update_movie db mid title release_date poster_path backdrop_path
        overview).master_list = db.master_list ∧
    (create_or_update_movie db mid title release_date poster_path backdrop_path
        overview).watch_later = db.watch_later := by
  rw [create_or_update_movie]
  split <;> exact ⟨rfl, rfl, rfl, rfl⟩

theorem genre_sync_one_frame (details : Int → Option MovieDetails) (db : Db)
    (card : DeckCard) :
    (genre_sync_one details db card).users = db.users ∧
    (genre_sync_one details db card).swipes = db.swipes ∧
    (genre_sync_one details db card).master_list = db.master_list ∧
    (genre_sync_one details db card).watch_later = db.watch_later := by
  rw [genre_sync_one]
  cases details card.id with
  | none => exact ⟨rfl, rfl, rfl, rfl⟩
  | some d =>
    dsimp only
    split <;> exact ⟨rfl, rfl, rfl, rfl⟩

theorem save_deck_movies_frame : ∀ (cards : List DeckCard) (db : Db),
    (save_deck_movies db cards).users = db.users ∧
    (save_deck_movies db cards).swipes = db.swipes ∧
    (save_deck_movies db cards).master_list = db.master_list ∧
    (save_deck_movies db cards).watch_later = db.watch_later
  | [], db => ⟨rfl, rfl, rfl, rfl⟩
  | c :: cs, db => by
    rw [save_deck_movies, List.foldl_cons]
    obtain ⟨h1, h2, h3, h4⟩ := save_deck_movies_frame cs
      (create_or_update_movie db c.id c.title c.release_date c.poster_path c.backdrop_path
        c.overview)
    obtain ⟨g1, g2, g3, g4⟩ := create_or_update_movie_frame db c.id c.title c.release_date
      c.poster_path c.backdrop_path c.overview
    rw [save_deck_movies] at h1 h2 h3 h4
    exact ⟨h1.trans g1, h2.trans g2, h3.trans g3, h4.trans g4⟩

theorem sync_fold_frame (details : Int → Option MovieDetails) :
    ∀ (cards : List DeckCard) (db : Db),
      (cards.foldl (genre_sync_one details) db).users = db.users ∧
      (cards.foldl (genre_sync_one details) db).swipes = db.swipes ∧
      (cards.foldl (genre_sync_one details) db).master_list = db.master_list ∧
      (cards.foldl (genre_sync_one details) db).watch_later = db.watch_later
  | [], db => ⟨rfl, rfl, rfl, rfl⟩
  | c :: cs, db => by
    rw [List.foldl_cons]
    obtain ⟨h1, h2, h3, h4⟩ := sync_fold_frame details cs (genre_sync_one details db c)
    obtain ⟨g1, g2, g3, g4⟩ := genre_sync_one_frame details db c
    exact ⟨h1.trans g1, h2.trans g2, h3.trans g3, h4.trans g4⟩

theorem deck_seen_congr (db db2 : Db) (uid : String)
    (h1 : db2.users = db.users) (h2 : db2.swipes = db.swipes)
    (h3 : db2.master_list = db.master_list) (h4 : db2.watch_later = db.watch_later) :
    deck_seen db2 uid = deck_seen db uid := by
  rw [deck_seen, deck_seen, get_user_by_email, get_user_by_email, h1]
  cases db.users.find? (fun u => u.email == uid) with
  | none => rfl
  | some u =>
    simp only [get_user_seen_movie_ids, get_user_swiped_movie_ids,
      get_user_master_list_movie_ids, get_user_watch_later_movie_ids, h2, h3, h4]

theorem get_deck_none_cursor (feed : Int → List TmdbMovie)
    (details : Int → Option MovieDetails) (db : Db) (uid : String) (limit : Int) :
    get_deck feed details db uid limit none =
      some ({ results := (getDeckCore feed (deck_seen db uid) limit 1 0).1,
              cursor := (getDeckCore feed (deck_seen db uid) limit 1 0).2.1.map
                (fun c => encode_cursor c.1 c.2),
              has_more := (getDeckCore feed (deck_seen db uid) limit 1 0).2.2 },
            (getDeckCore feed (deck_seen db uid) limit 1 0).1.foldl (genre_sync_one details)
              (save_deck_movies db (getDeckCore feed (deck_seen db uid) limit 1 0).1)) :=
  rfl

theorem get_deck_str_cursor (feed : Int → List TmdbMovie)
    (details : Int → Option MovieDetails) (db : Db) (uid : String) (limit : Int)
    (s : String) (hne : ¬(s = "")) (cp ci : Int)
    (hdec : decode_cursor s = (PyJson.int cp, PyJson.int ci)) :
    get_deck feed details db uid limit (some s) =
      some ({ results := (getDeckCore feed (deck_seen db uid) limit cp ci).1,
              cursor := (getDeckCore feed (deck_seen db uid) limit cp ci).2.1.map
                (fun c => encode_cursor c.1 c.2),
              has_more := (getDeckCore feed (deck_seen db uid) limit cp ci).2.2 },
            (getDeckCore feed (deck_seen db uid) limit cp ci).1.foldl
              (genre_sync_one details)
              (save_deck_movies db (getDeckCore feed (deck_seen db uid) limit cp ci).1)) := by
  rw [get_deck]
  dsimp only
  rw [if_neg hne, hdec]
  rfl

/-- C1: passing the returned next cursor back resumes deck-building with
zero overlap and zero gap: for positive limits and a duplicate-free
upstream feed, the first call's results concatenated with the resumed
call's results equal the results of one unbroken call with
`limit1 + limit2` (and no card appears in both calls); when the first
call returns no cursor, the unbroken bigger call returns exactly the
first call's results. -/
theorem deck_cursor_resume_composes
    (feed : Int → List TmdbMovie) (details : Int → Option MovieDetails) (db : Db)
    (uid : String) (l1 l2 : Int) (h1 : 0 < l1) (h2 : 0 < l2)
    (hdup : ((feedStream feed 1 0).map (fun e => e.2.2.id)).Nodup)
    (resp1 : DeckResp) (dbA : Db)
    (hcall1 : get_deck feed details db uid l1 none = some (resp1, dbA)) :
    (∀ s, resp1.cursor = some s →
      ∃ resp2 dbB respBig dbC,
        get_deck feed details dbA uid l2 (some s) = some (resp2, dbB) ∧
        get_deck feed details db uid (l1 + l2) none = some (respBig, dbC) ∧
        respBig.results = resp1.results ++ resp2.results ∧
        ∀ c ∈ resp1.results, c ∉ resp2.results) ∧
    (resp1.cursor = none →
      ∃ respBig dbC,
        get_deck feed details db uid (l1 + l2) none = some (respBig, dbC) ∧
        respBig.results = resp1.results) := by
  rw [get_deck_none_cursor] at hcall1
  have hx := Option.some.inj hcall1
  obtain ⟨hresp0, hdbA0⟩ := Prod.mk.injEq .. ▸ hx
  have hresp := hresp0.symm
  have hdbA := hdbA0.symm
  rcases hcur : (refGo (deck_seen db uid) l1 (feedStream feed 1 0) []).2.1
    with _ | ⟨cp, ci⟩
  · -- the first call returned no cursor
    constructor
    · intro s hs
      rw [hresp] at hs
      dsimp only at hs
      rw [getDeckCore_refGo feed (deck_seen db uid) l1 1 0 h1, hcur] at hs
      simp at hs
    · intro _
      refine ⟨_, _, get_deck_none_cursor feed details db uid (l1 + l2), ?_⟩
      rw [hresp]
      dsimp only
      rw [getDeckCore_refGo feed (deck_seen db uid) (l1 + l2) 1 0 (by omega),
        getDeckCore_refGo feed (deck_seen db uid) l1 1 0 h1,
        refGo_none_mono (deck_seen db uid) l1 (l1 + l2) (by omega)
          (feedStream feed 1 0) [] hcur]
  · -- the first call returned a cursor encoding (cp, ci)
    have hrespcur : resp1.cursor = some (encode_cursor cp ci) := by
      rw [hresp]
      dsimp only
      rw [getDeckCore_refGo feed (deck_seen db uid) l1 1 0 h1, hcur]
      rfl
    constructor
    · intro s hs
      have hseq : s = encode_cursor cp ci := by
        rw [hrespcur] at hs
        exact (Option.some.inj hs).symm
      subst hseq
      have hrun : refGo (deck_seen db uid) l1 (feedStream feed 1 0) [] =
          ((refGo (deck_seen db uid) l1 (feedStream feed 1 0) []).1, some (cp, ci),
            (refGo (deck_seen db uid) l1 (feedStream feed 1 0) []).2.2) := by
        rw [← hcur]
      obtain ⟨pre, m, post, hsplit, hlen1, hall⟩ :=
        refGo_resume (deck_seen db uid) l1 (feedStream feed 1 0) [] _ cp ci _
          (by simpa using h1) hrun
      have hfs : feedStream feed 1 0 = flattenF feed 500 1 0 := by
        rw [feedStream, show ((501 : Int) - 1).toNat = 500 from by decide]
      have hpost : feedStream feed cp ci = post := by
        have h0 := flattenF_split feed 500 1 0 pre cp (ci - 1) m post le_rfl (by norm_num)
          (by rw [← hfs]; exact hsplit)
        rw [show ci - 1 + 1 = ci from by omega] at h0
        exact h0
      have hc2 := get_deck_str_cursor feed details dbA uid l2 (encode_cursor cp ci)
        (encode_cursor_ne_empty cp ci) cp ci (decode_encode_cursor cp ci)
      have hseenA : deck_seen dbA uid = deck_seen db uid := by
        rw [hdbA]
        obtain ⟨s1, s2, s3, s4⟩ := sync_fold_frame details _
          (save_deck_movies db (getDeckCore feed (deck_seen db uid) l1 1 0).1)
        obtain ⟨t1, t2, t3, t4⟩ := save_deck_movies_frame
          (getDeckCore feed (deck_seen db uid) l1 1 0).1 db
        exact deck_seen_congr db _ uid (s1.trans t1) (s2.trans t2) (s3.trans t3)
          (s4.trans t4)
      rw [hseenA] at hc2
      have hcore2 : getDeckCore feed (deck_seen db uid) l2 cp ci =
          refGo (deck_seen db uid) l2 post [] := by
        rw [getDeckCore_refGo feed (deck_seen db uid) l2 cp ci h2, hpost]
      have hcoreB : getDeckCore feed (deck_seen db uid) (l1 + l2) 1 0 =
          ((refGo (deck_seen db uid) l1 (feedStream feed 1 0) []).1 ++
              (refGo (deck_seen db uid) l2 post []).1,
            (refGo (deck_seen db uid) l2 post []).2) := by
        rw [getDeckCore_refGo feed (deck_seen db uid) (l1 + l2) 1 0 (by omega)]
        rw [hall (l1 + l2) (by omega)]
        have hsh := refGo_shift (deck_seen db uid) post
          (refGo (deck_seen db uid) l1 (feedStream feed 1 0) []).1 [] (l1 + l2)
        rw [List.append_nil] at hsh
        rw [hsh]
        have harg : l1 + l2 -
            ((refGo (deck_seen db uid) l1 (feedStream feed 1 0) []).1.length : Int) = l2 := by
          rw [hlen1]
          ring
        rw [harg]
      refine ⟨_, _, _, _, hc2, get_deck_none_cursor feed details db uid (l1 + l2), ?_, ?_⟩
      · rw [hresp]
        dsimp only
        rw [hcoreB, hcore2, getDeckCore_refGo feed (deck_seen db uid) l1 1 0 h1]
      · intro c hcmem hcmem2
        have hnodup := refGo_nodup_cards (deck_seen db uid) (l1 + l2)
          (feedStream feed 1 0) hdup
        have hBeq : (refGo (deck_seen db uid) (l1 + l2) (feedStream feed 1 0) []).1 =
            (refGo (deck_seen db uid) l1 (feedStream feed 1 0) []).1 ++
              (refGo (deck_seen db uid) l2 post []).1 := by
          rw [← getDeckCore_refGo feed (deck_seen db uid) (l1 + l2) 1 0 (by omega), hcoreB]
        rw [hBeq] at hnodup
        have hdisj := List.disjoint_of_nodup_append hnodup
        rw [hresp] at hcmem
        dsimp only at hcmem
        rw [getDeckCore_refGo feed (deck_seen db uid) l1 1 0 h1] at hcmem
        dsimp only at hcmem2
        rw [hcore2] at hcmem2
        exact hdisj hcmem hcmem2
    · intro h
      rw [hrespcur] at h
      exact absurd h (by simp)

theorem deck_cursor_resume_composes_witness :
    ∃ resp2 dbB respBig dbC,
      get_deck demoFeed demoDetails
          (save_deck_movies demoDb [mkDeckCard (demoMovie 680 "Pulp Fiction")])
          "demo" 1 (some (encode_cursor 1 2)) = some (resp2, dbB) ∧
      get_deck demoFeed demoDetails demoDb "demo" 2 none = some (respBig, dbC) ∧
      respBig.results = [mkDeckCard (demoMovie 680 "Pulp Fiction")] ++ resp2.results ∧
      ∀ c ∈ [mkDeckCard (demoMovie 680 "Pulp Fiction")], c ∉ resp2.results := by
  obtain ⟨hsome, -⟩ := deck_cursor_resume_composes demoFeed demoDetails demoDb "demo" 1 1
    (by decide) (by decide) (by decide)
    { results := [mkDeckCard (demoMovie 680 "Pulp Fiction")],
      cursor := some (encode_cursor 1 2), has_more := true }
    (save_deck_movies demoDb [mkDeckCard (demoMovie 680 "Pulp Fiction")])
    (by decide)
  exact hsome (encode_cursor 1 2) rfl

theorem get_deck_fst_indep (feed : Int → List TmdbMovie)
    (details details' : Int → Option MovieDetails) (db : Db) (uid : String)
    (limit : Int) :
    ∀ cursor, (get_deck feed details db uid limit cursor).map Prod.fst =
      (get_deck feed details' db uid limit cursor).map Prod.fst := by
  intro cursor
  cases cursor with
  | none => rfl
  | some s =>
    rw [get_deck, get_deck]
    dsimp only
    by_cases hse : s = ""
    · rw [if_pos hse]
      rfl
    · rw [if_neg hse]
      cases pyAsInt (decode_cursor s).1 with
      | none => rfl
      | some p =>
        cases pyAsInt (decode_cursor s).2 with
        | none => rfl
        | some i => rfl

/-- C6: genre-sync failures are isolated per movie and never touch the
response: (a) the successful response is exactly what any other details
source would have produced — a failing fetch or persist never changes
(or fails) the already-computed results, cursor and has_more; (b) a
movie whose details fetch fails syncs nothing, its transaction rolling
back to the incoming state; (c) when any one movie's genre sync is a
rollback (failed fetch or failed persist), the final store state is
exactly the fold over all the remaining movies, so later movies still
get their sync. -/
theorem genre_sync_failure_isolated (feed : Int → List TmdbMovie)
    (details : Int → Option MovieDetails) (db : Db) (uid : String) (limit : Int)
    (cursor : Option String) (resp : DeckResp) (db2 : Db)
    (hcall : get_deck feed details db uid limit cursor = some (resp, db2)) :
    (∀ details', ∃ db2',
        get_deck feed details' db uid limit cursor = some (resp, db2')) ∧
    (∀ (dbx : Db) (c : DeckCard), details c.id = none →
        genre_sync_one details dbx c = dbx) ∧
    (∀ pre c post, resp.results = pre ++ c :: post →
      genre_sync_one details
          (pre.foldl (genre_sync_one details) (save_deck_movies db resp.results)) c =
        pre.foldl (genre_sync_one details) (save_deck_movies db resp.results) →
      db2 = (pre ++ post).foldl (genre_sync_one details)
        (save_deck_movies db resp.results)) := by
  refine ⟨?_, ?_, ?_⟩
  · intro details'
    have hind := get_deck_fst_indep feed details details' db uid limit cursor
    rw [hcall] at hind
    cases hcd : get_deck feed details' db uid limit cursor with
    | none =>
      rw [hcd] at hind
      exact absurd hind (by simp)
    | some pair =>
      rw [hcd] at hind
      simp only [Option.map_some', Option.some.injEq] at hind
      refine ⟨pair.2, ?_⟩
      rw [hind]
  · intro dbx c hnone
    rw [genre_sync_one, hnone]
  · intro pre c post hsplit hnoop
    obtain ⟨sp, si, hres, -, -, hdb2⟩ :=
      get_deck_some feed details db uid limit cursor resp db2 hcall
    rw [← hres] at hdb2
    set B := save_deck_movies db resp.results with hB
    rw [hdb2, hsplit, List.foldl_append, List.foldl_cons, hnoop, ← List.foldl_append]

theorem genre_sync_failure_isolated_witness :
    (∀ details', ∃ db2',
        get_deck demoFeed details' demoDb "demo" 2 none = some (demoDeckResp, db2')) ∧
    (∀ (dbx : Db) (c : DeckCard), demoDetails c.id = none →
        genre_sync_one demoDetails dbx c = dbx) ∧
    (∀ pre c post, demoDeckResp.results = pre ++ c :: post →
      genre_sync_one demoDetails
          (pre.foldl (genre_sync_one demoDetails)
            (save_deck_movies demoDb demoDeckResp.results)) c =
        pre.foldl (genre_sync_one demoDetails)
          (save_deck_movies demoDb demoDeckResp.results) →
      save_deck_movies demoDb demoDeckResp.results =
        (pre ++ post).foldl (genre_sync_one demoDetails)
          (save_deck_movies demoDb demoDeckResp.results)) :=
  genre_sync_failure_isolated demoFeed demoDetails demoDb "demo" 2 none demoDeckResp
    (save_deck_movies demoDb demoDeckResp.results) (by decide)
